import Mathlib

/-!
# Verification of the cloud-code file-based task coordination core

This file gives a shallow embedding, in Lean 4, of the core of the
`cloud-code` repository (Python) and proves or refutes a collection of
claims about it:

* `src/cloud_code/core/task_interface.py` — the `tasking.yaml` /
  `reporting.yaml` document model (`TaskingFile`, `ReportingFile`,
  `TaskReport`, …), their save/load and the agent/orchestrator operations.
* `src/cloud_code/agent_control_plane/loop.py` — `AgentLoop._select_next_task`.
* `src/cloud_code/agent_control_plane/cli_runner.py` — `BaseCLI._check_needs_handoff`
  and `BaseCLI._run_command`.
* `src/cloud_code/github/comment_parser.py` — `parse_cloud_code_command`.

Modelling conventions:
* Python `datetime` values are a `DateTime` structure of numeric fields;
  their JSON serialization (pydantic `model_dump(mode="json")`) is the
  ISO-8601 rendering `YYYY-MM-DDTHH:MM:SS[.ffffff]` modelled character by
  character.
* The YAML text layer is modelled as the identity on JSON-compatible
  trees: `yaml.safe_load (yaml.dump j) = j` for every tree `j` produced by
  `model_dump(mode="json")`, so a file's content is modelled as the `Json`
  tree itself.
* Python `dict`s preserve insertion order; they are modelled as
  association lists with unique keys, lookups via `List.find?`.
* Mutation of in-memory objects is modelled by explicit state passing:
  a Python method mutating `self` becomes a Lean function returning the
  new value.  `datetime.utcnow()` becomes an explicit time parameter.
* Python exceptions are modelled with `Except`/`Option`.
-/

set_option linter.unusedVariables false

namespace CloudCode

/-- JSON-compatible trees: the codomain of pydantic `model_dump(mode="json")`
and the (YAML-encoded) content of the two documents.  The documents never
contain floats, so numbers are `Int`. -/
inductive Json where
  | null
  | bool (b : Bool)
  | num (n : Int)
  | str (s : String)
  | arr (elems : List Json)
  | obj (fields : List (String × Json))

/-- Python `datetime.datetime` (naive, as produced by `datetime.utcnow()`). -/
structure DateTime where
  year : Nat
  month : Nat
  day : Nat
  hour : Nat
  minute : Nat
  second : Nat
  microsecond : Nat
  deriving DecidableEq, Repr

/-- Field bounds under which the ISO rendering below is injective
(real `datetime` values satisfy much tighter bounds). -/
def DateTime.ValidB (d : DateTime) : Bool :=
  d.year < 10000 && d.month < 100 && d.day < 100 && d.hour < 100 &&
    d.minute < 100 && d.second < 100 && d.microsecond < 1000000

/-- One decimal digit character (of `n % 10`). -/
def dChar (n : Nat) : Char := Char.ofNat (48 + n % 10)

/-- Numeric value of a digit character. -/
def dVal (c : Char) : Nat := c.toNat - 48

def pad2 (n : Nat) : List Char := [dChar (n / 10), dChar n]

def pad4 (n : Nat) : List Char :=
  [dChar (n / 1000), dChar (n / 100), dChar (n / 10), dChar n]

def pad6 (n : Nat) : List Char :=
  [dChar (n / 100000), dChar (n / 10000), dChar (n / 1000),
   dChar (n / 100), dChar (n / 10), dChar n]

/-- `datetime.isoformat()`: `YYYY-MM-DDTHH:MM:SS`, plus `.ffffff` exactly
when the microsecond field is nonzero (Python omits it when zero). -/
def DateTime.isoChars (d : DateTime) : List Char :=
  pad4 d.year ++ '-' :: pad2 d.month ++ '-' :: pad2 d.day ++
    'T' :: pad2 d.hour ++ ':' :: pad2 d.minute ++ ':' :: pad2 d.second ++
    (if d.microsecond = 0 then [] else '.' :: pad6 d.microsecond)

def DateTime.iso (d : DateTime) : String := String.mk d.isoChars

/-- Parser for the ISO renderings above (the fragment of pydantic's
datetime validation that the codec round trip exercises). -/
def dtParse : List Char → Option DateTime
  | y1 :: y2 :: y3 :: y4 :: '-' :: m1 :: m2 :: '-' :: d1 :: d2 :: 'T' ::
      h1 :: h2 :: ':' :: n1 :: n2 :: ':' :: s1 :: s2 :: rest =>
    if y1.isDigit && y2.isDigit && y3.isDigit && y4.isDigit &&
        m1.isDigit && m2.isDigit && d1.isDigit && d2.isDigit &&
        h1.isDigit && h2.isDigit && n1.isDigit && n2.isDigit &&
        s1.isDigit && s2.isDigit then
      let base : DateTime :=
        { year := dVal y1 * 1000 + dVal y2 * 100 + dVal y3 * 10 + dVal y4
          month := dVal m1 * 10 + dVal m2
          day := dVal d1 * 10 + dVal d2
          hour := dVal h1 * 10 + dVal h2
          minute := dVal n1 * 10 + dVal n2
          second := dVal s1 * 10 + dVal s2
          microsecond := 0 }
      match rest with
      | [] => some base
      | '.' :: u1 :: u2 :: u3 :: u4 :: u5 :: u6 :: [] =>
        if u1.isDigit && u2.isDigit && u3.isDigit && u4.isDigit &&
            u5.isDigit && u6.isDigit then
          some { base with
                  microsecond := dVal u1 * 100000 + dVal u2 * 10000 +
                    dVal u3 * 1000 + dVal u4 * 100 + dVal u5 * 10 + dVal u6 }
        else none
      | _ => none
    else none
  | _ => none

@[simp] theorem toNat_dChar (n : Nat) : (dChar n).toNat = 48 + n % 10 := by
  have h : ∀ m, m < 10 → (Char.ofNat (48 + m)).toNat = 48 + m := by decide
  have := h (n % 10) (Nat.mod_lt _ (by omega))
  simpa [dChar] using this

@[simp] theorem isDigit_dChar (n : Nat) : (dChar n).isDigit = true := by
  have h : ∀ m, m < 10 → (Char.ofNat (48 + m)).isDigit = true := by decide
  simpa [dChar] using h (n % 10) (Nat.mod_lt _ (by omega))

@[simp] theorem dVal_dChar (n : Nat) : dVal (dChar n) = n % 10 := by
  simp [dVal]

theorem dtParse_isoChars (d : DateTime) (h : d.ValidB = true) :
    dtParse d.isoChars = some d := by
  obtain ⟨y, mo, dy, hr, mi, se, us⟩ := d
  simp only [DateTime.ValidB, Bool.and_eq_true, decide_eq_true_eq] at h
  obtain ⟨⟨⟨⟨⟨⟨hy, hmo⟩, hdy⟩, hhr⟩, hmi⟩, hse⟩, hus⟩ := h
  by_cases hz : us = 0
  · subst hz
    simp only [DateTime.isoChars, pad4, pad2, pad6, if_pos rfl,
      List.cons_append, List.nil_append, List.append_nil]
    simp only [dtParse, isDigit_dChar, Bool.and_self, if_pos, dVal_dChar]
    congr 1
    congr 1 <;> omega
  · simp only [DateTime.isoChars, pad4, pad2, pad6, if_neg hz,
      List.cons_append, List.nil_append, List.append_nil]
    simp only [dtParse, isDigit_dChar, Bool.and_self, if_pos, dVal_dChar]
    congr 1
    congr 1 <;> omega

theorem dtParse_iso_data (d : DateTime) (h : d.ValidB = true) :
    dtParse (DateTime.iso d).data = some d := by
  simpa [DateTime.iso] using dtParse_isoChars d h

end CloudCode

namespace CloudCode

/-! ## Data model (`src/cloud_code/core/task_interface.py`) -/

/-- `TaskContext` — context provided with a task. -/
structure TaskContext where
  related_files : List String := []
  dependencies : List String := []
  deriving DecidableEq, Repr

/-- `TaskDefinition` — a task definition in `tasking.yaml`. -/
structure TaskDefinition where
  id : String
  title : String
  status : String := "assigned"
  priority : String := "medium"
  branch : String
  description : String
  acceptance_criteria : List String := []
  context : TaskContext := {}
  depends_on : List String := []
  workspace_mode : String := "shared"
  deriving DecidableEq, Repr

/-- `TaskingFile` — the `tasking.yaml` structure (orchestrator writes). -/
structure TaskingFile where
  version : Int := 1
  updated_at : DateTime
  workspace : Option String := none
  tasks : List TaskDefinition := []
  deriving DecidableEq, Repr

/-- `ProgressEntry` — a progress log entry.  `details : dict[str, Any]` is a
JSON object (association list). -/
structure ProgressEntry where
  timestamp : DateTime
  status : String
  message : String
  details : List (String × Json) := []

/-- `FileChange` — a file change record. -/
structure FileChange where
  path : String
  change_type : String
  lines_added : Int := 0
  lines_removed : Int := 0
  deriving DecidableEq, Repr

/-- `CommitRecord` — a commit record. -/
structure CommitRecord where
  sha : String
  message : String
  deriving DecidableEq, Repr

/-- `AcceptanceCriterionStatus` — status of an acceptance criterion. -/
structure AcceptanceCriterionStatus where
  criterion : String
  status : String
  deriving DecidableEq, Repr

/-- `CredentialRequestRecord` — a credential request from the agent. -/
structure CredentialRequestRecord where
  id : String
  type : String
  scope : String
  reason : String
  status : String := "pending"
  requested_at : DateTime
  deriving DecidableEq, Repr

/-- `TaskReport` — report for a single task. -/
structure TaskReport where
  status : String := "waiting"
  started_at : Option DateTime := none
  current_step : Option String := none
  summary : Option String := none
  progress : List ProgressEntry := []
  changes_summary : List String := []
  files_modified : List FileChange := []
  commits : List CommitRecord := []
  acceptance_criteria : List AcceptanceCriterionStatus := []
  error : Option String := none
  blocked_reason : Option String := none
  credential_requests : List CredentialRequestRecord := []

/-- `ReportingFile` — the `reporting.yaml` structure (agent writes).
`tasks : dict[str, TaskReport]` is an insertion-ordered association list. -/
structure ReportingFile where
  version : Int := 1
  agent_type : String := "unknown"
  agent_id : String := "unknown"
  updated_at : DateTime
  status : String := "idle"
  tasks : List (String × TaskReport) := []

/-! ## JSON codec (pydantic `model_dump(mode="json")` / model validation) -/

def encOptStr : Option String → Json
  | none => .null
  | some s => .str s

def encList (f : α → Json) (xs : List α) : Json := .arr (xs.map f)

def encStrList (xs : List String) : Json := encList Json.str xs

def encDT (d : DateTime) : Json := .str d.iso

def encOptDT : Option DateTime → Json
  | none => .null
  | some d => .str d.iso

def TaskContext.toJson (c : TaskContext) : Json :=
  .obj [("related_files", encStrList c.related_files),
        ("dependencies", encStrList c.dependencies)]

def TaskDefinition.toJson (t : TaskDefinition) : Json :=
  .obj [("id", .str t.id), ("title", .str t.title), ("status", .str t.status),
        ("priority", .str t.priority), ("branch", .str t.branch),
        ("description", .str t.description),
        ("acceptance_criteria", encStrList t.acceptance_criteria),
        ("context", t.context.toJson),
        ("depends_on", encStrList t.depends_on),
        ("workspace_mode", .str t.workspace_mode)]

def TaskingFile.toJson (f : TaskingFile) : Json :=
  .obj [("version", .num f.version), ("updated_at", encDT f.updated_at),
        ("workspace", encOptStr f.workspace),
        ("tasks", encList TaskDefinition.toJson f.tasks)]

def ProgressEntry.toJson (e : ProgressEntry) : Json :=
  .obj [("timestamp", encDT e.timestamp), ("status", .str e.status),
        ("message", .str e.message), ("details", .obj e.details)]

def FileChange.toJson (c : FileChange) : Json :=
  .obj [("path", .str c.path), ("change_type", .str c.change_type),
        ("lines_added", .num c.lines_added), ("lines_removed", .num c.lines_removed)]

def CommitRecord.toJson (c : CommitRecord) : Json :=
  .obj [("sha", .str c.sha), ("message", .str c.message)]

def AcceptanceCriterionStatus.toJson (a : AcceptanceCriterionStatus) : Json :=
  .obj [("criterion", .str a.criterion), ("status", .str a.status)]

def CredentialRequestRecord.toJson (r : CredentialRequestRecord) : Json :=
  .obj [("id", .str r.id), ("type", .str r.type), ("scope", .str r.scope),
        ("reason", .str r.reason), ("status", .str r.status),
        ("requested_at", encDT r.requested_at)]

def TaskReport.toJson (r : TaskReport) : Json :=
  .obj [("status", .str r.status), ("started_at", encOptDT r.started_at),
        ("current_step", encOptStr r.current_step),
        ("summary", encOptStr r.summary),
        ("progress", encList ProgressEntry.toJson r.progress),
        ("changes_summary", encStrList r.changes_summary),
        ("files_modified", encList FileChange.toJson r.files_modified),
        ("commits", encList CommitRecord.toJson r.commits),
        ("acceptance_criteria", encList AcceptanceCriterionStatus.toJson r.acceptance_criteria),
        ("error", encOptStr r.error),
        ("blocked_reason", encOptStr r.blocked_reason),
        ("credential_requests", encList CredentialRequestRecord.toJson r.credential_requests)]

def ReportingFile.toJson (rf : ReportingFile) : Json :=
  .obj [("version", .num rf.version), ("agent_type", .str rf.agent_type),
        ("agent_id", .str rf.agent_id), ("updated_at", encDT rf.updated_at),
        ("status", .str rf.status),
        ("tasks", .obj (rf.tasks.map (fun p => (p.1, p.2.toJson))))]

/-- Field lookup in a JSON object (pydantic validates by field name). -/
def jGet (j : Json) (k : String) : Option Json :=
  match j with
  | .obj fs => (fs.find? (fun p => p.1 == k)).map (·.2)
  | _ => none

/-- A field with a pydantic default: missing means the default, present
means it must decode. -/
def jField (j : Json) (k : String) (dec : Json → Option α) (dflt : α) : Option α :=
  match jGet j k with
  | none => some dflt
  | some v => dec v

/-- A required pydantic field: missing or ill-typed is a validation error. -/
def jReq (j : Json) (k : String) (dec : Json → Option α) : Option α :=
  (jGet j k).bind dec

def decStr : Json → Option String
  | .str s => some s
  | _ => none

def decInt : Json → Option Int
  | .num n => some n
  | _ => none

def decOptStr : Json → Option (Option String)
  | .null => some none
  | .str s => some (some s)
  | _ => none

def decDT : Json → Option DateTime
  | .str s => dtParse s.data
  | _ => none

def decOptDT : Json → Option (Option DateTime)
  | .null => some none
  | .str s => (dtParse s.data).map some
  | _ => none

def decElems (f : Json → Option α) : List Json → Option (List α)
  | [] => some []
  | j :: js => do
    let x ← f j
    let xs ← decElems f js
    return x :: xs

def decList (f : Json → Option α) : Json → Option (List α)
  | .arr es => decElems f es
  | _ => none

def decStrList : Json → Option (List String) := decList decStr

def decDetails : Json → Option (List (String × Json))
  | .obj fs => some fs
  | _ => none

def TaskContext.ofJson (j : Json) : Option TaskContext := do
  let rf ← jField j "related_files" decStrList []
  let dp ← jField j "dependencies" decStrList []
  return ⟨rf, dp⟩

def TaskDefinition.ofJson (j : Json) : Option TaskDefinition := do
  let id ← jReq j "id" decStr
  let title ← jReq j "title" decStr
  let status ← jField j "status" decStr "assigned"
  let priority ← jField j "priority" decStr "medium"
  let branch ← jReq j "branch" decStr
  let description ← jReq j "description" decStr
  let ac ← jField j "acceptance_criteria" decStrList []
  let ctx ← jField j "context" TaskContext.ofJson {}
  let deps ← jField j "depends_on" decStrList []
  let mode ← jField j "workspace_mode" decStr "shared"
  return ⟨id, title, status, priority, branch, description, ac, ctx, deps, mode⟩

def TaskingFile.ofJson (now : DateTime) (j : Json) : Option TaskingFile := do
  let version ← jField j "version" decInt 1
  let upd ← jField j "updated_at" decDT now
  let ws ← jField j "workspace" decOptStr none
  let tasks ← jField j "tasks" (decList TaskDefinition.ofJson) []
  return ⟨version, upd, ws, tasks⟩

def ProgressEntry.ofJson (now : DateTime) (j : Json) : Option ProgressEntry := do
  let ts ← jField j "timestamp" decDT now
  let status ← jReq j "status" decStr
  let message ← jReq j "message" decStr
  let details ← jField j "details" decDetails []
  return ⟨ts, status, message, details⟩

def FileChange.ofJson (j : Json) : Option FileChange := do
  let path ← jReq j "path" decStr
  let ct ← jReq j "change_type" decStr
  let la ← jField j "lines_added" decInt 0
  let lr ← jField j "lines_removed" decInt 0
  return ⟨path, ct, la, lr⟩

def CommitRecord.ofJson (j : Json) : Option CommitRecord := do
  let sha ← jReq j "sha" decStr
  let message ← jReq j "message" decStr
  return ⟨sha, message⟩

def AcceptanceCriterionStatus.ofJson (j : Json) : Option AcceptanceCriterionStatus := do
  let c ← jReq j "criterion" decStr
  let s ← jReq j "status" decStr
  return ⟨c, s⟩

def CredentialRequestRecord.ofJson (now : DateTime) (j : Json) :
    Option CredentialRequestRecord := do
  let id ← jReq j "id" decStr
  let ty ← jReq j "type" decStr
  let scope ← jReq j "scope" decStr
  let reason ← jReq j "reason" decStr
  let status ← jField j "status" decStr "pending"
  let ra ← jField j "requested_at" decDT now
  return ⟨id, ty, scope, reason, status, ra⟩

def TaskReport.ofJson (now : DateTime) (j : Json) : Option TaskReport := do
  let status ← jField j "status" decStr "waiting"
  let started ← jField j "started_at" decOptDT none
  let cs ← jField j "current_step" decOptStr none
  let summary ← jField j "summary" decOptStr none
  let progress ← jField j "progress" (decList (ProgressEntry.ofJson now)) []
  let changes ← jField j "changes_summary" decStrList []
  let files ← jField j "files_modified" (decList FileChange.ofJson) []
  let commits ← jField j "commits" (decList CommitRecord.ofJson) []
  let ac ← jField j "acceptance_criteria" (decList AcceptanceCriterionStatus.ofJson) []
  let err ← jField j "error" decOptStr none
  let br ← jField j "blocked_reason" decOptStr none
  let creds ← jField j "credential_requests" (decList (CredentialRequestRecord.ofJson now)) []
  return ⟨status, started, cs, summary, progress, changes, files, commits, ac, err, br, creds⟩

def decReportEntries (now : DateTime) : List (String × Json) →
    Option (List (String × TaskReport))
  | [] => some []
  | p :: ps => do
    let r ← TaskReport.ofJson now p.2
    let rest ← decReportEntries now ps
    return (p.1, r) :: rest

def decReportMap (now : DateTime) : Json → Option (List (String × TaskReport))
  | .obj fs => decReportEntries now fs
  | _ => none

def ReportingFile.ofJson (now : DateTime) (j : Json) : Option ReportingFile := do
  let version ← jField j "version" decInt 1
  let at_ ← jField j "agent_type" decStr "unknown"
  let ai ← jField j "agent_id" decStr "unknown"
  let upd ← jField j "updated_at" decDT now
  let status ← jField j "status" decStr "idle"
  let tasks ← jField j "tasks" (decReportMap now) []
  return ⟨version, at_, ai, upd, status, tasks⟩

end CloudCode

namespace CloudCode

/-! ## Codec round trips -/

theorem decList_encList (f : α → Json) (g : Json → Option α) (xs : List α)
    (h : ∀ x ∈ xs, g (f x) = some x) : decList g (encList f xs) = some xs := by
  induction xs with
  | nil => simp [decList, encList, decElems]
  | cons x xs ih =>
    have hx := h x (by simp)
    have hrest := ih (fun y hy => h y (by simp [hy]))
    simp only [decList, encList, List.map_cons] at hrest ⊢
    simp [decElems, hx, hrest]

theorem decStrList_enc (xs : List String) : decStrList (encStrList xs) = some xs :=
  decList_encList _ _ _ (fun x _ => rfl)

theorem decOptStr_enc (o : Option String) : decOptStr (encOptStr o) = some o := by
  cases o <;> rfl

theorem decDT_enc (d : DateTime) (h : d.ValidB = true) : decDT (encDT d) = some d := by
  simp [decDT, encDT, dtParse_iso_data d h]

theorem decOptDT_enc (o : Option DateTime) (h : ∀ d, o = some d → d.ValidB = true) :
    decOptDT (encOptDT o) = some o := by
  cases o with
  | none => rfl
  | some d => simp [decOptDT, encOptDT, dtParse_iso_data d (h d rfl)]

theorem taskContext_roundtrip (c : TaskContext) :
    TaskContext.ofJson c.toJson = some c := by
  obtain ⟨rf, dp⟩ := c
  simp [TaskContext.ofJson, TaskContext.toJson, jField, jGet, List.find?,
    decStrList_enc]

theorem taskDefinition_roundtrip (t : TaskDefinition) :
    TaskDefinition.ofJson t.toJson = some t := by
  obtain ⟨id, title, status, priority, branch, description, ac, ctx, deps, mode⟩ := t
  simp [TaskDefinition.ofJson, TaskDefinition.toJson, jField, jReq, jGet,
    List.find?, decStr, decStrList_enc, taskContext_roundtrip]

theorem taskingFile_roundtrip (now : DateTime) (f : TaskingFile)
    (h : f.updated_at.ValidB = true) :
    TaskingFile.ofJson now f.toJson = some f := by
  obtain ⟨version, upd, ws, tasks⟩ := f
  simp only [TaskingFile.toJson] at *
  simp [TaskingFile.ofJson, jField, jGet, List.find?, decInt,
    decDT_enc _ h, decOptStr_enc,
    decList_encList TaskDefinition.toJson TaskDefinition.ofJson tasks
      (fun x _ => taskDefinition_roundtrip x)]

theorem progressEntry_roundtrip (now : DateTime) (e : ProgressEntry)
    (h : e.timestamp.ValidB = true) :
    ProgressEntry.ofJson now e.toJson = some e := by
  obtain ⟨ts, status, message, details⟩ := e
  simp only at h
  simp [ProgressEntry.ofJson, ProgressEntry.toJson, jField, jReq, jGet,
    List.find?, decStr, decDetails, decDT_enc _ h]

theorem fileChange_roundtrip (c : FileChange) :
    FileChange.ofJson c.toJson = some c := by
  obtain ⟨path, ct, la, lr⟩ := c
  simp [FileChange.ofJson, FileChange.toJson, jField, jReq, jGet, List.find?,
    decStr, decInt]

theorem commitRecord_roundtrip (c : CommitRecord) :
    CommitRecord.ofJson c.toJson = some c := by
  obtain ⟨sha, message⟩ := c
  simp [CommitRecord.ofJson, CommitRecord.toJson, jReq, jGet, List.find?, decStr]

theorem acceptanceCriterionStatus_roundtrip (a : AcceptanceCriterionStatus) :
    AcceptanceCriterionStatus.ofJson a.toJson = some a := by
  obtain ⟨c, s⟩ := a
  simp [AcceptanceCriterionStatus.ofJson, AcceptanceCriterionStatus.toJson,
    jReq, jGet, List.find?, decStr]

theorem credentialRequestRecord_roundtrip (now : DateTime)
    (r : CredentialRequestRecord) (h : r.requested_at.ValidB = true) :
    CredentialRequestRecord.ofJson now r.toJson = some r := by
  obtain ⟨id, ty, scope, reason, status, ra⟩ := r
  simp only at h
  simp [CredentialRequestRecord.ofJson, CredentialRequestRecord.toJson,
    jField, jReq, jGet, List.find?, decStr, decDT_enc _ h]

/-- All datetimes inside a task report satisfy the padding bounds. -/
def TaskReport.datesOk (r : TaskReport) : Bool :=
  (match r.started_at with
   | none => true
   | some d => d.ValidB) &&
  r.progress.all (fun e => e.timestamp.ValidB) &&
  r.credential_requests.all (fun c => c.requested_at.ValidB)

theorem taskReport_roundtrip (now : DateTime) (r : TaskReport)
    (h : r.datesOk = true) :
    TaskReport.ofJson now r.toJson = some r := by
  obtain ⟨status, started, cs, summary, progress, changes, files, commits,
    ac, err, br, creds⟩ := r
  simp only [TaskReport.datesOk, Bool.and_eq_true, List.all_eq_true] at h
  obtain ⟨⟨hst, hpr⟩, hcr⟩ := h
  have hstarted : decOptDT (encOptDT started) = some started := by
    apply decOptDT_enc
    intro d hd
    subst hd
    simpa using hst
  simp [TaskReport.ofJson, TaskReport.toJson, jField, jReq, jGet, List.find?,
    decStr, decStrList_enc, decOptStr_enc, hstarted,
    decList_encList ProgressEntry.toJson (ProgressEntry.ofJson now) progress
      (fun x hx => progressEntry_roundtrip now x (by simpa using hpr x hx)),
    decList_encList FileChange.toJson FileChange.ofJson files
      (fun x _ => fileChange_roundtrip x),
    decList_encList CommitRecord.toJson CommitRecord.ofJson commits
      (fun x _ => commitRecord_roundtrip x),
    decList_encList AcceptanceCriterionStatus.toJson AcceptanceCriterionStatus.ofJson ac
      (fun x _ => acceptanceCriterionStatus_roundtrip x),
    decList_encList CredentialRequestRecord.toJson (CredentialRequestRecord.ofJson now) creds
      (fun x hx => credentialRequestRecord_roundtrip now x (by simpa using hcr x hx))]

theorem decReportMap_enc (now : DateTime) (ps : List (String × TaskReport))
    (h : ∀ p ∈ ps, p.2.datesOk = true) :
    decReportMap now (.obj (ps.map fun p => (p.1, p.2.toJson))) = some ps := by
  induction ps with
  | nil => simp [decReportMap, decReportEntries]
  | cons p ps ih =>
    have hp := taskReport_roundtrip now p.2 (h p (by simp))
    have hrest := ih (fun q hq => h q (by simp [hq]))
    simp only [decReportMap, List.map_cons] at hrest ⊢
    simp [decReportEntries, hp, hrest]

theorem reportingFile_roundtrip (now : DateTime) (rf : ReportingFile)
    (hu : rf.updated_at.ValidB = true)
    (ht : rf.tasks.all (fun p => p.2.datesOk) = true) :
    ReportingFile.ofJson now rf.toJson = some rf := by
  obtain ⟨version, at_, ai, upd, status, tasks⟩ := rf
  simp only at hu
  simp only [List.all_eq_true] at ht
  simp [ReportingFile.ofJson, ReportingFile.toJson, jField, jGet, List.find?,
    decInt, decStr, decDT_enc _ hu,
    decReportMap_enc now tasks (fun p hp => by simpa using ht p hp)]

/-! ## Save / load (atomic-replace content level)

`save` refreshes `updated_at` on the in-memory object and serializes it;
the pair is (post-save in-memory document, file content written).
`load` of a missing file is the default document (`path.exists()` guard);
otherwise `yaml.safe_load(content) or {}` is validated by pydantic. -/

def orEmpty : Json → Json
  | .null => .obj []
  | j => j

def TaskingFile.save (f : TaskingFile) (now : DateTime) : TaskingFile × Json :=
  let f' := { f with updated_at := now }
  (f', f'.toJson)

def TaskingFile.load (disk : Option Json) (now : DateTime) : Option TaskingFile :=
  match disk with
  | none => some { updated_at := now }
  | some j => TaskingFile.ofJson now (orEmpty j)

def ReportingFile.save (rf : ReportingFile) (now : DateTime) : ReportingFile × Json :=
  let rf' := { rf with updated_at := now }
  (rf', rf'.toJson)

def ReportingFile.load (disk : Option Json) (now : DateTime) : Option ReportingFile :=
  match disk with
  | none => some { updated_at := now }
  | some j => ReportingFile.ofJson now (orEmpty j)

end CloudCode

namespace CloudCode

/-! ## Tasking operations (orchestrator side) -/

/-- `TaskingFile.cancel_task`: set the first task with the given id to
`cancelled` (the Python loop `break`s after the first match). -/
def cancelInTasks : List TaskDefinition → String → List TaskDefinition
  | [], _ => []
  | t :: ts, tid =>
    if t.id = tid then { t with status := "cancelled" } :: ts
    else t :: cancelInTasks ts tid

def TaskingFile.cancelTask (f : TaskingFile) (tid : String) : TaskingFile :=
  { f with tasks := cancelInTasks f.tasks tid }

/-- `TaskInterface.cancel_task`: load `tasking.yaml` (disk content as an
optional JSON tree), cancel, save.  Returns the new on-disk content, or
`none` when loading raised (in which case nothing is written). -/
def interfaceCancelTask (disk : Option Json) (tid : String)
    (loadNow saveNow : DateTime) : Option Json :=
  (TaskingFile.load disk loadNow).map
    (fun f => ((f.cancelTask tid).save saveNow).2)

/-! ## Reporting operations (agent side) -/

/-- Lookup in the `tasks` dict. -/
def findReport (m : List (String × TaskReport)) (tid : String) : Option TaskReport :=
  (m.find? (fun p => p.1 == tid)).map (·.2)

/-- `ReportingFile.get_task_report` effect on the dict: insert a fresh
`TaskReport()` at the end if the key is absent (dicts keep insertion order). -/
def ensureReport (m : List (String × TaskReport)) (tid : String) :
    List (String × TaskReport) :=
  match m.find? (fun p => p.1 == tid) with
  | some _ => m
  | none => m ++ [(tid, {})]

/-- Mutation through the reference returned by `get_task_report`. -/
def modifyReport (m : List (String × TaskReport)) (tid : String)
    (f : TaskReport → TaskReport) : List (String × TaskReport) :=
  m.map (fun p => if p.1 == tid then (p.1, f p.2) else p)

/-- The mutation `update_task_status` performs on the single report
returned by `get_task_report`. -/
def applyStatusUpdate (status : String) (message : Option String)
    (details : Option (List (String × Json))) (now : DateTime)
    (r : TaskReport) : TaskReport :=
  let r := { r with status := status }
  let r :=
    if status = "received" ∧ r.started_at = none then
      { r with started_at := some now }
    else r
  -- `if message:` — Python truthiness: None and "" are both falsy
  match message with
  | none => r
  | some msg =>
    if msg = "" then r
    else
      { r with
          current_step := some msg,
          progress := r.progress ++
            [{ timestamp := now, status := status, message := msg,
               details := details.getD [] }] }

/-- `ReportingFile.update_task_status`. -/
def ReportingFile.updateTaskStatus (rf : ReportingFile) (tid status : String)
    (message : Option String) (details : Option (List (String × Json)))
    (now : DateTime) : ReportingFile :=
  { rf with
      tasks := modifyReport (ensureReport rf.tasks tid) tid
        (applyStatusUpdate status message details now) }

/-- The mutation `add_credential_request` performs on the report. -/
def applyCredentialRequest (request_id cred_type scope reason : String)
    (now : DateTime) (r : TaskReport) : TaskReport :=
  { r with credential_requests := r.credential_requests ++
      [{ id := request_id, type := cred_type, scope := scope,
         reason := reason, requested_at := now }] }

/-- `ReportingFile.add_credential_request`. -/
def ReportingFile.addCredentialRequest (rf : ReportingFile)
    (tid request_id cred_type scope reason : String) (now : DateTime) :
    ReportingFile :=
  { rf with
      tasks := modifyReport (ensureReport rf.tasks tid) tid
        (applyCredentialRequest request_id cred_type scope reason now) }

/-- `TaskInterface.update_status` (value level; the surrounding
load/save round trip is covered by the codec theorems). -/
def interfaceUpdateStatus (rf : ReportingFile) (tid status : String)
    (message : Option String) (details : Option (List (String × Json)))
    (now : DateTime) : ReportingFile :=
  let rf := { rf with status := if status = "in_progress" then "working" else "idle" }
  rf.updateTaskStatus tid status message details now

/-- The mutation `set_task_completed` performs on the report. -/
def applyCompleted (summary : String) (changes : List String)
    (files : List FileChange) (commits : List CommitRecord) (now : DateTime)
    (r : TaskReport) : TaskReport :=
  { r with
      status := "completed", summary := some summary,
      changes_summary := changes, files_modified := files,
      commits := commits,
      progress := r.progress ++
        [{ timestamp := now, status := "completed",
           message := "Task completed successfully" }] }

/-- `TaskInterface.set_task_completed`. -/
def interfaceSetTaskCompleted (rf : ReportingFile) (tid summary : String)
    (changes : List String) (files : List FileChange)
    (commits : List CommitRecord) (now : DateTime) : ReportingFile :=
  { rf with
      status := "idle",
      tasks := modifyReport (ensureReport rf.tasks tid) tid
        (applyCompleted summary changes files commits now) }

/-- The mutation `set_task_failed` performs on the report. -/
def applyFailed (error : String) (now : DateTime) (r : TaskReport) : TaskReport :=
  { r with
      status := "failed", error := some error,
      progress := r.progress ++
        [{ timestamp := now, status := "failed",
           message := "Task failed: " ++ error }] }

/-- `TaskInterface.set_task_failed`. -/
def interfaceSetTaskFailed (rf : ReportingFile) (tid error : String)
    (now : DateTime) : ReportingFile :=
  { rf with
      status := "idle",
      tasks := modifyReport (ensureReport rf.tasks tid) tid
        (applyFailed error now) }

/-- The mutation `set_task_blocked` performs on the report. -/
def applyBlocked (reason : String) (now : DateTime) (r : TaskReport) : TaskReport :=
  { r with
      status := "blocked", blocked_reason := some reason,
      progress := r.progress ++
        [{ timestamp := now, status := "blocked",
           message := "Task blocked: " ++ reason }] }

/-- `TaskInterface.set_task_blocked`. -/
def interfaceSetTaskBlocked (rf : ReportingFile) (tid reason : String)
    (now : DateTime) : ReportingFile :=
  { rf with
      status := "idle",
      tasks := modifyReport (ensureReport rf.tasks tid) tid
        (applyBlocked reason now) }

/-- `TaskInterface.request_credential` (the generated request id is a
parameter). -/
def interfaceRequestCredential (rf : ReportingFile)
    (tid request_id cred_type scope reason : String) (now : DateTime) :
    ReportingFile :=
  rf.addCredentialRequest tid request_id cred_type scope reason now

/-- One agent-side reporting operation (the operations of claim C3/C9). -/
inductive AgentOp where
  | update (tid status : String) (message : Option String)
      (details : Option (List (String × Json)))
  | complete (tid summary : String) (changes : List String)
      (files : List FileChange) (commits : List CommitRecord)
  | fail (tid error : String)
  | block (tid reason : String)
  | cred (tid request_id cred_type scope reason : String)

def applyAgentOp (rf : ReportingFile) (op : AgentOp) (now : DateTime) :
    ReportingFile :=
  match op with
  | .update tid st msg det => interfaceUpdateStatus rf tid st msg det now
  | .complete tid summary changes files commits =>
      interfaceSetTaskCompleted rf tid summary changes files commits now
  | .fail tid err => interfaceSetTaskFailed rf tid err now
  | .block tid reason => interfaceSetTaskBlocked rf tid reason now
  | .cred tid rid ty sc rs => interfaceRequestCredential rf tid rid ty sc rs now

def runAgentOps (rf : ReportingFile) : List (AgentOp × DateTime) → ReportingFile
  | [] => rf
  | (op, t) :: rest => runAgentOps (applyAgentOp rf op t) rest

/-- Does this operation target `tid` with an update to status `received`? -/
def AgentOp.setsReceived (op : AgentOp) (tid : String) : Bool :=
  match op with
  | .update tid' st _ _ => tid' == tid && st == "received"
  | _ => false

/-- Observations on a reporting document. -/
def startedAt (rf : ReportingFile) (tid : String) : Option DateTime :=
  (rf.tasks.find? (fun p => p.1 == tid)).bind (fun p => p.2.started_at)

def statusOf (rf : ReportingFile) (tid : String) : Option String :=
  (rf.tasks.find? (fun p => p.1 == tid)).map (fun p => p.2.status)

def progressOf (rf : ReportingFile) (tid : String) : List ProgressEntry :=
  ((rf.tasks.find? (fun p => p.1 == tid)).map (fun p => p.2.progress)).getD []

def currentStepOf (rf : ReportingFile) (tid : String) : Option String :=
  (rf.tasks.find? (fun p => p.1 == tid)).bind (fun p => p.2.current_step)

end CloudCode

namespace CloudCode

/-! ## Task selection (`AgentLoop._select_next_task`) -/

/-- `priority_order.get(t.priority, 2)` with
`priority_order = {"critical": 0, "high": 1, "medium": 2, "low": 3}`. -/
def priorityKey (p : String) : Nat :=
  if p = "critical" then 0
  else if p = "high" then 1
  else if p = "medium" then 2
  else if p = "low" then 3
  else 2

/-- `all(reporting.tasks.get(dep, {}).status == "completed" for dep in task.depends_on)`.
The generator is evaluated left to right and short-circuits on the first
`False`.  When `dep` is absent, `.get(dep, {})` yields a plain dict `{}`,
and `{}.status` raises `AttributeError` — modelled as `.error ()`. -/
def depsMet (deps : List String) (reports : List (String × TaskReport)) :
    Except Unit Bool :=
  match deps with
  | [] => .ok true
  | d :: rest =>
    match reports.find? (fun p => p.1 == d) with
    | none => .error ()
    | some p =>
      if p.2.status = "completed" then depsMet rest reports
      else .ok false

/-- The per-task body of the eligibility loop: `False` means `continue`. -/
def keepTask (t : TaskDefinition) (rep : ReportingFile) : Except Unit Bool :=
  let terminal : Bool :=
    ((rep.tasks.find? (fun p => p.1 == t.id)).map
      (fun p => (["completed", "failed", "blocked"] : List String).contains p.2.status)).getD false
  if terminal then .ok false
  else if t.depends_on ≠ [] then depsMet t.depends_on rep.tasks
  else .ok true

def eligibleTasks : List TaskDefinition → ReportingFile → Except Unit (List TaskDefinition)
  | [], _ => .ok []
  | t :: ts, rep => do
    let k ← keepTask t rep
    let rest ← eligibleTasks ts rep
    .ok (if k then t :: rest else rest)

/-- Stable insertion sort by `priorityKey`.  Python's `list.sort` is a
stable sort, and a stable sort by a key is extensionally unique, so this
is `eligible.sort(key=lambda t: priority_order.get(t.priority, 2))`. -/
def insertByKey (t : TaskDefinition) : List TaskDefinition → List TaskDefinition
  | [] => [t]
  | u :: us =>
    if priorityKey t.priority ≤ priorityKey u.priority then t :: u :: us
    else u :: insertByKey t us

def sortByKey : List TaskDefinition → List TaskDefinition
  | [] => []
  | t :: ts => insertByKey t (sortByKey ts)

/-- `AgentLoop._select_next_task(tasks, reporting)`. -/
def selectNextTask (tasks : List TaskDefinition) (rep : ReportingFile) :
    Except Unit (Option TaskDefinition) := do
  let eligible ← eligibleTasks tasks rep
  match eligible with
  | [] => .ok none
  | _ :: _ => .ok (sortByKey eligible).head?

/-! ## Coding-CLI runner (`cli_runner.py`) -/

/-- `CLIResult`.  Text is modelled as `List Char`; the `cost_usd: float`
field is omitted (floating point, untouched by every claim). -/
structure CLIResult where
  success : Bool
  output : List Char
  error : Option (List Char) := none
  files_changed : List String := []
  needs_handoff : Bool := false
  tokens_used : Int := 0

/-- The seven fixed handoff indicator phrases. -/
def handoffIndicators : List (List Char) :=
  ["unable to resolve".data, "stuck".data, "cannot proceed".data,
   "need different approach".data, "out of my expertise".data,
   "i cannot".data, "beyond my capabilities".data]

/-- Python `needle in text` substring test. -/
def containsSub (needle : List Char) : List Char → Bool
  | [] => needle.isEmpty
  | c :: cs => needle.isPrefixOf (c :: cs) || containsSub needle cs

def lowerChars (cs : List Char) : List Char := cs.map Char.toLower

/-- `BaseCLI._check_needs_handoff(output, error)`:
`text = (output + (error or "")).lower()`, then scan for indicators. -/
def checkNeedsHandoff (output : List Char) (error : Option (List Char)) : Bool :=
  let text := lowerChars (output ++ error.getD [])
  handoffIndicators.any (fun ind => containsSub ind text)

/-- The normal-completion branch of `BaseCLI._run_command`:
`success = returncode == 0`; `error_msg = stderr.decode() if stderr and
not success else None`. -/
def runCompleted (returncode : Int) (stdout stderr : List Char) : CLIResult :=
  let success : Bool := returncode == 0
  let output := stdout
  let error_msg := if stderr ≠ [] ∧ success = false then some stderr else none
  { success := success, output := output, error := error_msg,
    needs_handoff := checkNeedsHandoff output error_msg }

/-- The `asyncio.TimeoutError` branch of `_run_command`. -/
def runTimedOut (timeout : Int) : CLIResult :=
  { success := false, output := [],
    error := some ("Task timed out after " ++ toString timeout ++ " seconds").data }

/-- The `FileNotFoundError` / generic `Exception` branches of `_run_command`. -/
def runRaised (msg : List Char) : CLIResult :=
  { success := false, output := [], error := some msg }

/-! ## Comment command parsing (`github/comment_parser.py`)

`COMMAND_PATTERN = re.compile(r"^/cloud-code\s+(\w+)(?:\s+(.*))?$",
re.MULTILINE | re.IGNORECASE)` and `COMMAND_PATTERN.search(comment_body)`.
The matcher below implements exactly this pattern: `^` (MULTILINE)
anchors every attempt at a line start, `\s+`/`\w+` are maximal-munch
(no backtracking can help: whitespace and word characters are disjoint
and none of them can start the literal tail), `(?:\s+(.*))?` is tried
greedily and, since `.` stops at a newline and `$` (MULTILINE) matches
before a newline or at the end, it succeeds exactly when a whitespace
character follows the action word. -/

def cmdChars : List Char := "/cloud-code".data

/-- ASCII fragment of Python's `\s` (all inputs here are ASCII). -/
def isPySpace (c : Char) : Bool :=
  c ∈ ([' ', '\t', '\n', '\r', '\x0B', '\x0C'] : List Char)

/-- ASCII fragment of Python's `\w`. -/
def isPyWord (c : Char) : Bool := c.isAlphanum || c == '_'

/-- Case-insensitive literal match: the pattern (already lowercase)
against the head of the input. -/
def stripCI : List Char → List Char → Option (List Char)
  | [], s => some s
  | _ :: _, [] => none
  | p :: ps, c :: cs => if c.toLower = p then stripCI ps cs else none

/-- Attempt the pattern at one position (a line start). Returns
`(group 1, group 2)` on a match. -/
def matchCmdAt (s : List Char) : Option (List Char × Option (List Char)) :=
  match stripCI cmdChars s with
  | none => none
  | some r1 =>
    let w1 := r1.takeWhile isPySpace
    let r2 := r1.dropWhile isPySpace
    if w1 = [] then none
    else
      let act := r2.takeWhile isPyWord
      let r3 := r2.dropWhile isPyWord
      if act = [] then none
      else
        match r3 with
        | [] => some (act, none)
        | c :: _ =>
          if isPySpace c then
            let r4 := r3.dropWhile isPySpace
            let args := r4.takeWhile (fun ch => ch ≠ '\n')
            some (act, some args)
          else none

/-- Character-by-character scan: attempt the pattern at every line start
(`^` with `re.MULTILINE` anchors at position 0 and right after each
newline), left to right — exactly the positions `re.search` can match at. -/
def searchFrom : List Char → Bool → Option (List Char × Option (List Char))
  | [], _ => none
  | c :: cs, atStart =>
    match (if atStart then matchCmdAt (c :: cs) else none) with
    | some r => some r
    | none => searchFrom cs (c == '\n')

/-- `COMMAND_PATTERN.search(comment_body)`. -/
def searchCmd (s : List Char) : Option (List Char × Option (List Char)) :=
  searchFrom s true

/-- Python `str.strip()`. -/
def pyStrip (cs : List Char) : List Char :=
  ((cs.dropWhile isPySpace).reverse.dropWhile isPySpace).reverse

/-- `args.split()[0]` (callers only use it on non-empty stripped text). -/
def firstTok (cs : List Char) : List Char :=
  (cs.dropWhile isPySpace).takeWhile (fun c => !(isPySpace c))

/-- `args.split(maxsplit=1)`. -/
def splitMax1 (cs : List Char) : List (List Char) :=
  let cs' := cs.dropWhile isPySpace
  if cs' = [] then []
  else
    let tok := cs'.takeWhile (fun c => !(isPySpace c))
    let rest := (cs'.dropWhile (fun c => !(isPySpace c))).dropWhile isPySpace
    if rest = [] then [tok] else [tok, rest]

/-- `parse_cloud_code_command(comment_body)`.  The returned Python dict is
modelled as an insertion-ordered association list; a value of `none`
models Python `None`. -/
def parseCloudCodeCommand (body : String) : Option (List (String × Option String)) :=
  match searchCmd body.data with
  | none => none
  | some (act, grp2) =>
    let action := String.mk (lowerChars act)
    -- `args = match.group(2).strip() if match.group(2) else ""`
    let args : List Char :=
      match grp2 with
      | none => []
      | some g => if g = [] then [] else pyStrip g
    let base : List (String × Option String) := [("action", some action)]
    if action = "run" then
      some (base ++ (if args ≠ [] then [("agent_type", some (String.mk (firstTok args)))] else []))
    else if action = "handoff" then
      some (base ++ (if args ≠ [] then [("target_agent", some (String.mk (firstTok args)))]
               else [("target_agent", (none : Option String))]))
    else if action = "reject" then
      some (base ++ (if args ≠ [] then [("reason", some (String.mk args))] else []))
    else if action = "config" then
      some (base ++ (match splitMax1 args with
        | [] => []
        | [k] => [("key", some (String.mk k))]
        | k :: v :: _ => [("key", some (String.mk k)), ("value", some (String.mk v))]))
    else some base

/-! ## File-system operation traces for `save` (claim C2) -/

/-- `pathlib.Path`: a directory (component list) plus a final name. -/
structure FilePath where
  dir : List String
  name : String
  deriving DecidableEq

/-- Remove the final `.suffix` of a name, if any (`Path.stem`). -/
def chopExtRev : List Char → Option (List Char)
  | [] => none
  | c :: cs => if c = '.' then some cs else chopExtRev cs

/-- `Path.with_suffix(suf)`: replace (or add) the final suffix of the name. -/
def FilePath.withSuffix (p : FilePath) (suf : String) : FilePath :=
  let stem :=
    match chopExtRev p.name.data.reverse with
    | some rest => rest.reverse
    | none => p.name.data
  { p with name := String.mk stem ++ suf }

inductive FsOp where
  | mkdirParents (dir : List String)
  | writeFile (path : FilePath) (content : Json)
  | fsync (path : FilePath)
  | rename (src : FilePath) (dst : FilePath)

def FsOp.isFsync : FsOp → Bool
  | .fsync _ => true
  | _ => false

/-- Does this operation open the given path for writing (truncating it)? -/
def FsOp.writesTo (op : FsOp) (p : FilePath) : Bool :=
  match op with
  | .writeFile q _ => decide (q = p)
  | _ => false

/-- The file-system operations performed by `TaskingFile.save(path)`, in
order: `path.parent.mkdir(parents=True)`, `tmp_path.write_text(content)`,
`tmp_path.rename(path)`. -/
def TaskingFile.saveOps (f : TaskingFile) (path : FilePath) (now : DateTime) :
    List FsOp :=
  let f' := { f with updated_at := now }
  [.mkdirParents path.dir,
   .writeFile (path.withSuffix ".tmp") f'.toJson,
   .rename (path.withSuffix ".tmp") path]

/-- The file-system operations performed by `ReportingFile.save(path)`. -/
def ReportingFile.saveOps (rf : ReportingFile) (path : FilePath) (now : DateTime) :
    List FsOp :=
  let rf' := { rf with updated_at := now }
  [.mkdirParents path.dir,
   .writeFile (path.withSuffix ".tmp") rf'.toJson,
   .rename (path.withSuffix ".tmp") path]

/-- `TaskInterface` paths: `{workspace}/.cloud-code/tasking.yaml` and
`{workspace}/.cloud-code/reporting.yaml`. -/
def taskingPath (ws : String) : FilePath := ⟨[ws, ".cloud-code"], "tasking.yaml"⟩

def reportingPath (ws : String) : FilePath := ⟨[ws, ".cloud-code"], "reporting.yaml"⟩

end CloudCode

namespace CloudCode

/-! ## Association-list lemmas for the reporting `tasks` dict -/

theorem key_preserving_modify (tid : String) (f : TaskReport → TaskReport) :
    ((fun p => p.1 == tid) ∘
      (fun (p : String × TaskReport) => if p.1 == tid then (p.1, f p.2) else p)) =
    (fun p => p.1 == tid) := by
  funext p
  by_cases h : p.1 = tid <;> simp [h]

theorem find?_modifyReport_self (m : List (String × TaskReport)) (tid : String)
    (f : TaskReport → TaskReport) :
    (modifyReport m tid f).find? (fun p => p.1 == tid) =
      (m.find? (fun p => p.1 == tid)).map (fun p => (p.1, f p.2)) := by
  rw [modifyReport, List.find?_map, key_preserving_modify]
  cases hf : m.find? (fun p => p.1 == tid) with
  | none => rfl
  | some p =>
    have hp := List.find?_some hf
    simp only [beq_iff_eq] at hp
    simp [hp]

theorem find?_modifyReport_ne (m : List (String × TaskReport)) (tid' tid : String)
    (f : TaskReport → TaskReport) (h : tid' ≠ tid) :
    (modifyReport m tid' f).find? (fun p => p.1 == tid) =
      m.find? (fun p => p.1 == tid) := by
  rw [modifyReport, List.find?_map]
  have hg : ((fun p => p.1 == tid) ∘
      (fun (p : String × TaskReport) => if p.1 == tid' then (p.1, f p.2) else p)) =
      (fun p => p.1 == tid) := by
    funext p
    by_cases hp : p.1 = tid' <;> simp [hp]
  rw [hg]
  cases hf : m.find? (fun p => p.1 == tid) with
  | none => rfl
  | some p =>
    have hp := List.find?_some hf
    simp only [beq_iff_eq] at hp
    have : ¬ (p.1 = tid') := by
      rw [hp]
      exact fun hc => h hc.symm
    simp [this]

theorem find?_ensureReport_self (m : List (String × TaskReport)) (tid : String) :
    (ensureReport m tid).find? (fun p => p.1 == tid) =
      some ((m.find? (fun p => p.1 == tid)).getD (tid, {})) := by
  unfold ensureReport
  cases h : m.find? (fun p => p.1 == tid) with
  | some p => simp [h]
  | none => simp [h, List.find?_append, List.find?]

theorem find?_ensureReport_ne (m : List (String × TaskReport)) (tid' tid : String)
    (h : tid' ≠ tid) :
    (ensureReport m tid').find? (fun p => p.1 == tid) =
      m.find? (fun p => p.1 == tid) := by
  unfold ensureReport
  cases h2 : m.find? (fun p => p.1 == tid') with
  | some p => rfl
  | none =>
    have hb : (tid' == tid) = false := by simp [h]
    simp [List.find?_append, List.find?, hb]

theorem find?_modify_ensure_self (m : List (String × TaskReport)) (tid : String)
    (f : TaskReport → TaskReport) :
    (modifyReport (ensureReport m tid) tid f).find? (fun p => p.1 == tid) =
      some ((((m.find? (fun p => p.1 == tid)).getD (tid, {})).1,
             f (((m.find? (fun p => p.1 == tid)).getD (tid, {})).2))) := by
  rw [find?_modifyReport_self, find?_ensureReport_self]
  rfl

theorem find?_modify_ensure_ne (m : List (String × TaskReport)) (tid' tid : String)
    (f : TaskReport → TaskReport) (h : tid' ≠ tid) :
    (modifyReport (ensureReport m tid') tid' f).find? (fun p => p.1 == tid) =
      m.find? (fun p => p.1 == tid) := by
  rw [find?_modifyReport_ne _ _ _ _ h, find?_ensureReport_ne _ _ _ h]

end CloudCode

namespace CloudCode

/-! ## Field behaviour of the per-report mutations -/

theorem applyStatusUpdate_status (st : String) (msg : Option String)
    (det : Option (List (String × Json))) (now : DateTime) (r : TaskReport) :
    (applyStatusUpdate st msg det now r).status = st := by
  cases msg with
  | none =>
    by_cases hrec : st = "received" ∧ r.started_at = none <;>
      simp [applyStatusUpdate, hrec]
  | some m =>
    by_cases hm : m = "" <;>
      by_cases hrec : st = "received" ∧ r.started_at = none <;>
        simp [applyStatusUpdate, hrec, hm]

theorem applyStatusUpdate_started (st : String) (msg : Option String)
    (det : Option (List (String × Json))) (now : DateTime) (r : TaskReport) :
    (applyStatusUpdate st msg det now r).started_at =
      if st = "received" ∧ r.started_at = none then some now else r.started_at := by
  cases msg with
  | none =>
    by_cases hrec : st = "received" ∧ r.started_at = none <;>
      simp [applyStatusUpdate, hrec]
  | some m =>
    by_cases hm : m = "" <;>
      by_cases hrec : st = "received" ∧ r.started_at = none <;>
        simp [applyStatusUpdate, hrec, hm]

theorem applyStatusUpdate_progress_none (st : String)
    (det : Option (List (String × Json))) (now : DateTime) (r : TaskReport) :
    (applyStatusUpdate st none det now r).progress = r.progress := by
  by_cases hrec : st = "received" ∧ r.started_at = none <;>
    simp [applyStatusUpdate, hrec]

theorem applyStatusUpdate_progress_empty (st : String)
    (det : Option (List (String × Json))) (now : DateTime) (r : TaskReport) :
    (applyStatusUpdate st (some "") det now r).progress = r.progress := by
  by_cases hrec : st = "received" ∧ r.started_at = none <;>
    simp [applyStatusUpdate, hrec]

theorem applyStatusUpdate_progress_some (st m : String) (hm : m ≠ "")
    (det : Option (List (String × Json))) (now : DateTime) (r : TaskReport) :
    (applyStatusUpdate st (some m) det now r).progress =
      r.progress ++ [{ timestamp := now, status := st, message := m,
                       details := det.getD [] }] := by
  by_cases hrec : st = "received" ∧ r.started_at = none <;>
    simp [applyStatusUpdate, hrec, hm]

theorem applyStatusUpdate_step_none (st : String)
    (det : Option (List (String × Json))) (now : DateTime) (r : TaskReport) :
    (applyStatusUpdate st none det now r).current_step = r.current_step := by
  by_cases hrec : st = "received" ∧ r.started_at = none <;>
    simp [applyStatusUpdate, hrec]

theorem applyStatusUpdate_step_empty (st : String)
    (det : Option (List (String × Json))) (now : DateTime) (r : TaskReport) :
    (applyStatusUpdate st (some "") det now r).current_step = r.current_step := by
  by_cases hrec : st = "received" ∧ r.started_at = none <;>
    simp [applyStatusUpdate, hrec]

theorem applyStatusUpdate_step_some (st m : String) (hm : m ≠ "")
    (det : Option (List (String × Json))) (now : DateTime) (r : TaskReport) :
    (applyStatusUpdate st (some m) det now r).current_step = some m := by
  by_cases hrec : st = "received" ∧ r.started_at = none <;>
    simp [applyStatusUpdate, hrec, hm]

theorem applyCompleted_started (summary : String) (changes : List String)
    (files : List FileChange) (commits : List CommitRecord) (now : DateTime)
    (r : TaskReport) :
    (applyCompleted summary changes files commits now r).started_at =
      r.started_at := rfl

theorem applyFailed_started (error : String) (now : DateTime) (r : TaskReport) :
    (applyFailed error now r).started_at = r.started_at := rfl

theorem applyBlocked_started (reason : String) (now : DateTime) (r : TaskReport) :
    (applyBlocked reason now r).started_at = r.started_at := rfl

theorem applyCredentialRequest_started (rid ty sc rs : String) (now : DateTime)
    (r : TaskReport) :
    (applyCredentialRequest rid ty sc rs now r).started_at = r.started_at := rfl

end CloudCode

namespace CloudCode

/-! ## Observations after each interface operation -/

theorem statusOf_interfaceUpdateStatus (rf : ReportingFile) (tid st : String)
    (msg : Option String) (det : Option (List (String × Json))) (now : DateTime) :
    statusOf (interfaceUpdateStatus rf tid st msg det now) tid = some st := by
  simp only [interfaceUpdateStatus, ReportingFile.updateTaskStatus, statusOf]
  rw [find?_modify_ensure_self]
  simp [applyStatusUpdate_status]

theorem statusOf_interfaceSetTaskCompleted (rf : ReportingFile)
    (tid summary : String) (changes : List String) (files : List FileChange)
    (commits : List CommitRecord) (now : DateTime) :
    statusOf (interfaceSetTaskCompleted rf tid summary changes files commits now)
      tid = some "completed" := by
  simp only [interfaceSetTaskCompleted, statusOf]
  rw [find?_modify_ensure_self]
  simp [applyCompleted]

theorem statusOf_interfaceSetTaskFailed (rf : ReportingFile) (tid err : String)
    (now : DateTime) :
    statusOf (interfaceSetTaskFailed rf tid err now) tid = some "failed" := by
  simp only [interfaceSetTaskFailed, statusOf]
  rw [find?_modify_ensure_self]
  simp [applyFailed]

theorem statusOf_interfaceSetTaskBlocked (rf : ReportingFile) (tid reason : String)
    (now : DateTime) :
    statusOf (interfaceSetTaskBlocked rf tid reason now) tid = some "blocked" := by
  simp only [interfaceSetTaskBlocked, statusOf]
  rw [find?_modify_ensure_self]
  simp [applyBlocked]

theorem topStatus_interfaceUpdateStatus (rf : ReportingFile) (tid st : String)
    (msg : Option String) (det : Option (List (String × Json))) (now : DateTime) :
    (interfaceUpdateStatus rf tid st msg det now).status =
      (if st = "in_progress" then "working" else "idle") := rfl

theorem progressOf_interfaceUpdateStatus_some (rf : ReportingFile) (tid st m : String)
    (hm : m ≠ "") (det : Option (List (String × Json))) (now : DateTime) :
    progressOf (interfaceUpdateStatus rf tid st (some m) det now) tid =
      progressOf rf tid ++
        [{ timestamp := now, status := st, message := m, details := det.getD [] }] := by
  simp only [interfaceUpdateStatus, ReportingFile.updateTaskStatus, progressOf]
  rw [find?_modify_ensure_self]
  cases hf : rf.tasks.find? (fun p => p.1 == tid) with
  | none => simp [hf, applyStatusUpdate_progress_some st m hm]
  | some p => simp [hf, applyStatusUpdate_progress_some st m hm]

theorem stepOf_interfaceUpdateStatus_some (rf : ReportingFile) (tid st m : String)
    (hm : m ≠ "") (det : Option (List (String × Json))) (now : DateTime) :
    currentStepOf (interfaceUpdateStatus rf tid st (some m) det now) tid = some m := by
  simp only [interfaceUpdateStatus, ReportingFile.updateTaskStatus, currentStepOf]
  rw [find?_modify_ensure_self]
  simp [applyStatusUpdate_step_some st m hm]

theorem progressOf_interfaceUpdateStatus_falsy (rf : ReportingFile) (tid st : String)
    (msg : Option String) (hm : msg = none ∨ msg = some "")
    (det : Option (List (String × Json))) (now : DateTime) :
    progressOf (interfaceUpdateStatus rf tid st msg det now) tid =
      progressOf rf tid ∧
    currentStepOf (interfaceUpdateStatus rf tid st msg det now) tid =
      currentStepOf rf tid := by
  simp only [interfaceUpdateStatus, ReportingFile.updateTaskStatus, progressOf,
    currentStepOf]
  rw [find?_modify_ensure_self]
  rcases hm with hm | hm <;> subst hm <;>
    cases hf : rf.tasks.find? (fun p => p.1 == tid) with
  | none =>
    simp [hf, applyStatusUpdate_progress_none, applyStatusUpdate_step_none,
      applyStatusUpdate_progress_empty, applyStatusUpdate_step_empty]
  | some p =>
    simp [hf, applyStatusUpdate_progress_none, applyStatusUpdate_step_none,
      applyStatusUpdate_progress_empty, applyStatusUpdate_step_empty]

end CloudCode

namespace CloudCode

/-! ## `started_at` behaviour of the agent operations -/

theorem startedAt_modify_ensure_preserve (m : List (String × TaskReport))
    (tid' tid : String) (g : TaskReport → TaskReport)
    (hg : ∀ r, (g r).started_at = r.started_at) :
    ((modifyReport (ensureReport m tid') tid' g).find? (fun p => p.1 == tid)).bind
        (fun p => p.2.started_at) =
      (m.find? (fun p => p.1 == tid)).bind (fun p => p.2.started_at) := by
  by_cases h : tid' = tid
  · subst h
    rw [find?_modify_ensure_self]
    cases hf : m.find? (fun p => p.1 == tid') with
    | none => simp [hf, hg]
    | some p => simp [hf, hg]
  · rw [find?_modify_ensure_ne _ _ _ _ h]

theorem startedAt_applyAgentOp (rf : ReportingFile) (op : AgentOp)
    (now : DateTime) (tid : String) :
    startedAt (applyAgentOp rf op now) tid =
      match startedAt rf tid with
      | some t => some t
      | none => if op.setsReceived tid then some now else none := by
  cases op with
  | update tid' st msg det =>
    by_cases h : tid' = tid
    · subst h
      simp only [applyAgentOp, interfaceUpdateStatus,
        ReportingFile.updateTaskStatus, startedAt, AgentOp.setsReceived]
      rw [find?_modify_ensure_self]
      cases hf : rf.tasks.find? (fun p => p.1 == tid') with
      | none =>
        by_cases hst : st = "received" <;>
          simp [hf, applyStatusUpdate_started, hst]
      | some p =>
        cases hs : p.2.started_at with
        | some t => simp [hf, hs, applyStatusUpdate_started]
        | none =>
          by_cases hst : st = "received" <;>
            simp [hf, hs, applyStatusUpdate_started, hst]
    · have hb : (tid' == tid) = false := by simp [h]
      simp only [applyAgentOp, interfaceUpdateStatus,
        ReportingFile.updateTaskStatus, startedAt, AgentOp.setsReceived]
      rw [find?_modify_ensure_ne _ _ _ _ h]
      cases hf : (rf.tasks.find? (fun p => p.1 == tid)).bind
          (fun p => p.2.started_at) with
      | none => simp [hb]
      | some t => simp
  | complete tid' summary changes files commits =>
    simp only [applyAgentOp, interfaceSetTaskCompleted, startedAt,
      AgentOp.setsReceived]
    rw [startedAt_modify_ensure_preserve rf.tasks tid' tid
      (applyCompleted summary changes files commits now) (fun r => rfl)]
    cases (rf.tasks.find? (fun p => p.1 == tid)).bind (fun p => p.2.started_at) <;>
      simp
  | fail tid' err =>
    simp only [applyAgentOp, interfaceSetTaskFailed, startedAt,
      AgentOp.setsReceived]
    rw [startedAt_modify_ensure_preserve rf.tasks tid' tid
      (applyFailed err now) (fun r => rfl)]
    cases (rf.tasks.find? (fun p => p.1 == tid)).bind (fun p => p.2.started_at) <;>
      simp
  | block tid' reason =>
    simp only [applyAgentOp, interfaceSetTaskBlocked, startedAt,
      AgentOp.setsReceived]
    rw [startedAt_modify_ensure_preserve rf.tasks tid' tid
      (applyBlocked reason now) (fun r => rfl)]
    cases (rf.tasks.find? (fun p => p.1 == tid)).bind (fun p => p.2.started_at) <;>
      simp
  | cred tid' rid ty sc rs =>
    simp only [applyAgentOp, interfaceRequestCredential,
      ReportingFile.addCredentialRequest, startedAt, AgentOp.setsReceived]
    rw [startedAt_modify_ensure_preserve rf.tasks tid' tid
      (applyCredentialRequest rid ty sc rs now) (fun r => rfl)]
    cases (rf.tasks.find? (fun p => p.1 == tid)).bind (fun p => p.2.started_at) <;>
      simp

theorem startedAt_runAgentOps_some (rf : ReportingFile)
    (ops : List (AgentOp × DateTime)) (tid : String) (t : DateTime)
    (h : startedAt rf tid = some t) :
    startedAt (runAgentOps rf ops) tid = some t := by
  induction ops generalizing rf with
  | nil => exact h
  | cons p ops ih =>
    obtain ⟨op, tm⟩ := p
    apply ih
    rw [startedAt_applyAgentOp, h]

end CloudCode

namespace CloudCode

/-! ## Load-after-save and cancel idempotence -/

theorem load_save_tasking (f : TaskingFile) (t now : DateTime)
    (ht : t.ValidB = true) :
    TaskingFile.load (some (f.save t).2) now = some (f.save t).1 := by
  show TaskingFile.ofJson now
    (orEmpty ({ f with updated_at := t } : TaskingFile).toJson) = _
  rw [show orEmpty ({ f with updated_at := t } : TaskingFile).toJson =
    ({ f with updated_at := t } : TaskingFile).toJson from rfl]
  exact taskingFile_roundtrip now _ ht

theorem load_save_reporting (rf : ReportingFile) (t now : DateTime)
    (ht : t.ValidB = true) (hr : rf.tasks.all (fun p => p.2.datesOk) = true) :
    ReportingFile.load (some (rf.save t).2) now = some (rf.save t).1 := by
  show ReportingFile.ofJson now
    (orEmpty ({ rf with updated_at := t } : ReportingFile).toJson) = _
  rw [show orEmpty ({ rf with updated_at := t } : ReportingFile).toJson =
    ({ rf with updated_at := t } : ReportingFile).toJson from rfl]
  exact reportingFile_roundtrip now _ ht hr

theorem cancelInTasks_idem (ts : List TaskDefinition) (tid : String) :
    cancelInTasks (cancelInTasks ts tid) tid = cancelInTasks ts tid := by
  induction ts with
  | nil => rfl
  | cons t ts ih =>
    by_cases h : t.id = tid
    · simp [cancelInTasks, h]
    · simp [cancelInTasks, h, ih]

/-! ## Priority normalization and stable-sort facts (claim C10) -/

/-- A copy of a task with an unrecognized priority replaced by `"medium"`
(recognized priorities are kept). -/
def normalizeUnknownPriority (t : TaskDefinition) : TaskDefinition :=
  if t.priority ∈ (["critical", "high", "medium", "low"] : List String) then t
  else { t with priority := "medium" }

theorem priorityKey_unknown (p : String)
    (h : p ∉ (["critical", "high", "medium", "low"] : List String)) :
    priorityKey p = priorityKey "medium" := by
  simp only [List.mem_cons, List.mem_singleton, not_or] at h
  obtain ⟨h1, h2, h3, h4⟩ := h
  simp [priorityKey, h1, h2, h3, h4]

theorem priorityKey_normalize (t : TaskDefinition) :
    priorityKey (normalizeUnknownPriority t).priority = priorityKey t.priority := by
  unfold normalizeUnknownPriority
  by_cases h : t.priority ∈ (["critical", "high", "medium", "low"] : List String)
  · simp [h]
  · simp only [h, if_false]
    exact (priorityKey_unknown t.priority h).symm

theorem normalize_id (t : TaskDefinition) :
    (normalizeUnknownPriority t).id = t.id := by
  unfold normalizeUnknownPriority
  split <;> rfl

theorem normalize_deps (t : TaskDefinition) :
    (normalizeUnknownPriority t).depends_on = t.depends_on := by
  unfold normalizeUnknownPriority
  split <;> rfl

theorem keepTask_normalize (t : TaskDefinition) (rep : ReportingFile) :
    keepTask (normalizeUnknownPriority t) rep = keepTask t rep := by
  simp only [keepTask, normalize_id, normalize_deps]

theorem eligibleTasks_normalize (ts : List TaskDefinition) (rep : ReportingFile) :
    eligibleTasks (ts.map normalizeUnknownPriority) rep =
      (eligibleTasks ts rep).map (List.map normalizeUnknownPriority) := by
  induction ts with
  | nil => rfl
  | cons t ts ih =>
    simp only [List.map_cons, eligibleTasks, keepTask_normalize, ih]
    cases hk : keepTask t rep with
    | error e => rfl
    | ok k =>
      cases he : eligibleTasks ts rep with
      | error e => rfl
      | ok el =>
        cases k <;> simp [Except.map, bind, Except.bind]

theorem insertByKey_map_norm (t : TaskDefinition) (l : List TaskDefinition) :
    insertByKey (normalizeUnknownPriority t) (l.map normalizeUnknownPriority) =
      (insertByKey t l).map normalizeUnknownPriority := by
  induction l with
  | nil => rfl
  | cons u us ih =>
    by_cases h : priorityKey t.priority ≤ priorityKey u.priority <;>
      simp [insertByKey, priorityKey_normalize, h, ih]

theorem sortByKey_map_norm (l : List TaskDefinition) :
    sortByKey (l.map normalizeUnknownPriority) =
      (sortByKey l).map normalizeUnknownPriority := by
  induction l with
  | nil => rfl
  | cons t ts ih => simp [sortByKey, ih, insertByKey_map_norm]

theorem length_sortByKey (l : List TaskDefinition) :
    (sortByKey l).length = l.length := by
  induction l with
  | nil => rfl
  | cons t ts ih =>
    have : ∀ x (m : List TaskDefinition), (insertByKey x m).length = m.length + 1 := by
      intro x m
      induction m with
      | nil => rfl
      | cons u us ihm =>
        by_cases h : priorityKey x.priority ≤ priorityKey u.priority <;>
          simp [insertByKey, h, ihm]
    simp [sortByKey, this, ih]

theorem sortByKey_eq_nil (l : List TaskDefinition) (h : sortByKey l = []) : l = [] := by
  have := length_sortByKey l
  rw [h] at this
  cases l with
  | nil => rfl
  | cons t ts => simp at this

theorem sortByKey_head_min (l : List TaskDefinition) (y : TaskDefinition)
    (ys : List TaskDefinition) (h : sortByKey l = y :: ys) :
    ∀ u ∈ l, priorityKey y.priority ≤ priorityKey u.priority := by
  induction l generalizing y ys with
  | nil => simp [sortByKey] at h
  | cons x xs ih =>
    simp only [sortByKey] at h
    cases hs : sortByKey xs with
    | nil =>
      have hxs := sortByKey_eq_nil xs hs
      subst hxs
      simp only [sortByKey, insertByKey] at h
      cases h
      intro u hu
      simp only [List.mem_singleton] at hu
      subst hu
      exact Nat.le_refl _
    | cons z zs =>
      rw [hs] at h
      have hmin := ih z zs hs
      by_cases hk : priorityKey x.priority ≤ priorityKey z.priority
      · rw [insertByKey, if_pos hk] at h
        obtain ⟨rfl, -⟩ : y = x ∧ z :: zs = ys := by
          cases h; exact ⟨rfl, rfl⟩
        intro u hu
        rcases List.mem_cons.mp hu with rfl | hu
        · exact Nat.le_refl _
        · exact Nat.le_trans hk (hmin u hu)
      · rw [insertByKey, if_neg hk] at h
        obtain ⟨rfl, -⟩ : y = z ∧ insertByKey x zs = ys := by
          cases h; exact ⟨rfl, rfl⟩
        intro u hu
        rcases List.mem_cons.mp hu with rfl | hu
        · exact Nat.le_of_lt (Nat.lt_of_not_le hk)
        · exact hmin u hu

theorem sortByKey_head_split (l : List TaskDefinition) (t : TaskDefinition)
    (h : (sortByKey l).head? = some t) :
    ∃ l₁ l₂, l = l₁ ++ t :: l₂ ∧
      (∀ u ∈ l₁, priorityKey t.priority < priorityKey u.priority) ∧
      (∀ u ∈ l₂, priorityKey t.priority ≤ priorityKey u.priority) := by
  induction l generalizing t with
  | nil => simp [sortByKey] at h
  | cons x xs ih =>
    simp only [sortByKey] at h
    cases hs : sortByKey xs with
    | nil =>
      have hxs := sortByKey_eq_nil xs hs
      subst hxs
      simp only [sortByKey, insertByKey, List.head?] at h
      cases h
      exact ⟨[], [], rfl, by simp, by simp⟩
    | cons z zs =>
      rw [hs] at h
      have hmin := sortByKey_head_min xs z zs hs
      by_cases hk : priorityKey x.priority ≤ priorityKey z.priority
      · rw [insertByKey, if_pos hk] at h
        simp only [List.head?, Option.some.injEq] at h
        subst h
        refine ⟨[], xs, rfl, by simp, ?_⟩
        intro u hu
        exact Nat.le_trans hk (hmin u hu)
      · rw [insertByKey, if_neg hk] at h
        simp only [List.head?, Option.some.injEq] at h
        subst h
        obtain ⟨l₁, l₂, hsplit, hlt, hle⟩ := ih z (by rw [hs]; rfl)
        refine ⟨x :: l₁, l₂, by rw [hsplit]; rfl, ?_, hle⟩
        intro u hu
        rcases List.mem_cons.mp hu with rfl | hu
        · exact Nat.lt_of_not_le hk
        · exact hlt u hu

/-- The id (if any) selected, with the crash behaviour preserved. -/
def selectedId (e : Except Unit (Option TaskDefinition)) :
    Except Unit (Option String) :=
  e.map (fun o => o.map (fun t => t.id))

theorem selectNextTask_normalize (tasks : List TaskDefinition)
    (rep : ReportingFile) :
    selectedId (selectNextTask (tasks.map normalizeUnknownPriority) rep) =
      selectedId (selectNextTask tasks rep) := by
  unfold selectNextTask
  rw [eligibleTasks_normalize]
  cases he : eligibleTasks tasks rep with
  | error e => rfl
  | ok el =>
    cases el with
    | nil => rfl
    | cons x xs =>
      simp only [Except.map, List.map_cons, bind, Except.bind, selectedId]
      rw [show (normalizeUnknownPriority x :: xs.map normalizeUnknownPriority) =
        (x :: xs).map normalizeUnknownPriority from rfl, sortByKey_map_norm]
      rw [List.head?_map]
      cases (sortByKey (x :: xs)).head? with
      | none => rfl
      | some y => simp [normalize_id]

theorem selectNextTask_some_inversion (tasks : List TaskDefinition)
    (rep : ReportingFile) (t : TaskDefinition)
    (h : selectNextTask tasks rep = .ok (some t)) :
    ∃ el, eligibleTasks tasks rep = .ok el ∧ (sortByKey el).head? = some t := by
  unfold selectNextTask at h
  cases he : eligibleTasks tasks rep with
  | error e =>
    rw [he] at h
    simp [bind, Except.bind] at h
  | ok el =>
    rw [he] at h
    cases el with
    | nil => simp [bind, Except.bind] at h
    | cons x xs =>
      simp only [bind, Except.bind, Except.ok.injEq] at h
      exact ⟨x :: xs, rfl, h⟩

end CloudCode

namespace CloudCode

/-! ## No-command bodies parse to `none` (claim C8) -/

/-- Does this line begin (case-insensitively) with `/cloud-code`? -/
def hasCmdStart (line : List Char) : Bool := (stripCI cmdChars line).isSome

/-- The lines of a body, split on `'\n'`. -/
def bodyLines : List Char → List (List Char)
  | [] => [[]]
  | c :: cs =>
    match bodyLines cs with
    | [] => [[c]]
    | l :: ls => if c = '\n' then [] :: l :: ls else (c :: l) :: ls

theorem bodyLines_cons_nl (cs : List Char) :
    bodyLines ('\n' :: cs) = [] :: bodyLines cs := by
  obtain ⟨l, ls, hls⟩ : ∃ l ls, bodyLines cs = l :: ls := by
    cases cs with
    | nil => exact ⟨[], [], rfl⟩
    | cons c cs' =>
      rw [bodyLines]
      cases bodyLines cs' with
      | nil => exact ⟨[c], [], by simp⟩
      | cons l ls =>
        by_cases hc : c = '\n' <;> simp [hc]
  rw [bodyLines, hls]
  simp

theorem bodyLines_cons_ch (c : Char) (cs : List Char) (hc : c ≠ '\n') :
    ∃ l ls, bodyLines cs = l :: ls ∧ bodyLines (c :: cs) = (c :: l) :: ls := by
  obtain ⟨l, ls, hls⟩ : ∃ l ls, bodyLines cs = l :: ls := by
    cases hb : bodyLines cs with
    | nil =>
      exfalso
      induction cs with
      | nil => simp [bodyLines] at hb
      | cons d ds ihd =>
        rw [bodyLines] at hb
        cases hd : bodyLines ds with
        | nil => rw [hd] at hb; simp at hb
        | cons l ls =>
          rw [hd] at hb
          by_cases h2 : d = '\n' <;> simp [h2] at hb
    | cons l ls => exact ⟨l, ls, rfl⟩
  refine ⟨l, ls, hls, ?_⟩
  rw [bodyLines, hls]
  simp [hc]

theorem bodyLines_head (s : List Char) :
    ∃ ls, bodyLines s = (s.takeWhile (fun c => c ≠ '\n')) :: ls := by
  induction s with
  | nil => exact ⟨[], rfl⟩
  | cons c cs ih =>
    obtain ⟨ls, hls⟩ := ih
    by_cases hc : c = '\n'
    · subst hc
      refine ⟨bodyLines cs, ?_⟩
      rw [bodyLines_cons_nl]
      simp [List.takeWhile]
    · obtain ⟨l, ls', hcs, hcons⟩ := bodyLines_cons_ch c cs hc
      rw [hcs] at hls
      obtain rfl : l = cs.takeWhile (fun c => c ≠ '\n') := (List.cons.injEq _ _ _ _ ▸ hls).1
      refine ⟨ls', ?_⟩
      rw [hcons]
      simp [List.takeWhile, hc]

theorem stripCI_isSome_take (pat s : List Char) (hpat : '\n' ∉ pat)
    (h : (stripCI pat s).isSome = true) :
    (stripCI pat (s.takeWhile (fun c => c ≠ '\n'))).isSome = true := by
  induction pat generalizing s with
  | nil => simp [stripCI]
  | cons p ps ih =>
    cases s with
    | nil => simp [stripCI] at h
    | cons c cs =>
      by_cases hcp : c.toLower = p
      · have hcnl : c ≠ '\n' := by
          intro hc
          subst hc
          apply hpat
          have : ('\n' : Char).toLower = '\n' := by decide
          rw [this] at hcp
          rw [hcp]
          exact List.mem_cons_self _ _
        rw [stripCI, if_pos hcp] at h
        have htake : (c :: cs).takeWhile (fun c => c ≠ '\n') =
            c :: cs.takeWhile (fun c => c ≠ '\n') := by
          simp [List.takeWhile, hcnl]
        rw [htake, stripCI, if_pos hcp]
        exact ih cs (fun hm => hpat (List.mem_cons_of_mem _ hm)) h
      · rw [stripCI, if_neg hcp] at h
        simp at h

theorem matchCmdAt_none (s : List Char)
    (h : hasCmdStart (s.takeWhile (fun c => c ≠ '\n')) = false) :
    matchCmdAt s = none := by
  unfold matchCmdAt
  cases hstrip : stripCI cmdChars s with
  | none => rfl
  | some r =>
    exfalso
    have hs : (stripCI cmdChars s).isSome = true := by rw [hstrip]; rfl
    have := stripCI_isSome_take cmdChars s (by decide) hs
    rw [hasCmdStart] at h
    rw [this] at h
    cases h

theorem searchFrom_none (s : List Char) :
    ((∀ l ∈ bodyLines s, hasCmdStart l = false) → searchFrom s true = none) ∧
    ((∀ l ∈ (bodyLines s).tail, hasCmdStart l = false) → searchFrom s false = none) := by
  induction s with
  | nil => exact ⟨fun _ => rfl, fun _ => rfl⟩
  | cons c cs ih =>
    constructor
    · intro h
      have hline : hasCmdStart ((c :: cs).takeWhile (fun c => c ≠ '\n')) = false := by
        obtain ⟨ls, hbl⟩ := bodyLines_head (c :: cs)
        exact h _ (by rw [hbl]; exact List.mem_cons_self _ _)
      rw [searchFrom, if_pos rfl, matchCmdAt_none _ hline]
      by_cases hc : c = '\n'
      · subst hc
        rw [show ('\n' == '\n') = true from rfl]
        apply ih.1
        intro l hl
        exact h l (by rw [bodyLines_cons_nl]; exact List.mem_cons_of_mem _ hl)
      · rw [show (c == '\n') = false from by simp [hc]]
        apply ih.2
        intro l hl
        obtain ⟨l0, ls0, hcs, hcons⟩ := bodyLines_cons_ch c cs hc
        apply h
        rw [hcons]
        rw [hcs] at hl
        exact List.mem_cons_of_mem _ hl
    · intro h
      rw [searchFrom]
      simp only [if_neg (by simp : ¬ (false = true))]
      by_cases hc : c = '\n'
      · subst hc
        rw [show ('\n' == '\n') = true from rfl]
        apply ih.1
        intro l hl
        apply h
        rw [bodyLines_cons_nl]
        exact hl
      · rw [show (c == '\n') = false from by simp [hc]]
        apply ih.2
        intro l hl
        obtain ⟨l0, ls0, hcs, hcons⟩ := bodyLines_cons_ch c cs hc
        apply h
        rw [hcons]
        rw [hcs] at hl
        exact hl

theorem parse_none_of_no_cmd_line (body : String)
    (h : ∀ l ∈ bodyLines body.data, hasCmdStart l = false) :
    parseCloudCodeCommand body = none := by
  unfold parseCloudCodeCommand searchCmd
  rw [(searchFrom_none body.data).1 h]

end CloudCode

namespace CloudCode

/-! ## Concrete fixtures used by the claim theorems -/

def dt2024a : DateTime := ⟨2024, 1, 1, 0, 0, 0, 0⟩

def dt2024b : DateTime := ⟨2024, 1, 2, 3, 4, 5, 6⟩

/-- Task A of the dependency-gating scenario: priority high, no deps. -/
def taskHighA : TaskDefinition :=
  { id := "a", title := "Task A", priority := "high", branch := "cloud-code/issue-1",
    description := "first" }

/-- Task B of the dependency-gating scenario: priority critical, depends on A. -/
def taskCritB : TaskDefinition :=
  { id := "b", title := "Task B", priority := "critical", branch := "cloud-code/issue-2",
    description := "second", depends_on := ["a"] }

/-- A task with an unrecognized priority string. -/
def taskWeird : TaskDefinition :=
  { id := "w", title := "Task W", priority := "weird", branch := "cloud-code/issue-3",
    description := "third" }

/-- A fresh reporting document with no task entries. -/
def reportEmpty : ReportingFile := { updated_at := dt2024a }

/-- A reporting document where task "a" is in progress. -/
def reportInProgressA : ReportingFile :=
  { updated_at := dt2024a, tasks := [("a", { status := "in_progress" })] }

/-- A reporting document where task "a" is completed. -/
def reportCompletedA : ReportingFile :=
  { updated_at := dt2024a, tasks := [("a", { status := "completed" })] }

/-- A concrete tasking document. -/
def tasking0 : TaskingFile :=
  { updated_at := dt2024a, workspace := some "/workspace", tasks := [taskHighA] }

/-- A concrete reporting document with one populated report. -/
def reporting0 : ReportingFile :=
  { agent_type := "backend", agent_id := "backend-1", updated_at := dt2024a,
    status := "working",
    tasks := [("t",
      { status := "in_progress", started_at := some dt2024a,
        current_step := some "step",
        progress := [{ timestamp := dt2024a, status := "received",
                       message := "Task acknowledged" }] })] }

/-- A sequence of agent operations run after `reporting0`. -/
def ops0 : List (AgentOp × DateTime) :=
  [(.update "t" "in_progress" (some "working") none, dt2024b),
   (.cred "t" "cred-1" "npm_token" "repo" "publish", dt2024b),
   (.complete "t" "done" ["change"] [] [], dt2024b),
   (.update "t" "waiting" none none, dt2024b)]

/-! ## The claims -/

/-- **C1** (code bug).  The claim says the selector drops every pending task
with a `depends_on` entry whose report status is not `completed`, and in the
scenario (A: high, no deps, **no report entry yet**; B: critical,
`depends_on ["a"]`) returns A before A completes.  The code instead raises:
`reporting.tasks.get(dep, {})` falls back to a plain dict `{}`, and
`{}.status` is an `AttributeError` (modelled as `.error ()`), so selection
crashes whenever a dependency has no report entry.  Once "a" *has* an entry
the selector behaves exactly as claimed: A while "a" is unfinished, B once
"a" is completed. -/
theorem claimC1_select_crashes_on_missing_dep_report :
    selectNextTask [taskHighA, taskCritB] reportEmpty = .error () ∧
    selectNextTask [taskHighA, taskCritB] reportInProgressA = .ok (some taskHighA) ∧
    selectNextTask [taskHighA, taskCritB] reportCompletedA = .ok (some taskCritB) :=
  ⟨rfl, rfl, rfl⟩

/-- **C2** (counterexample).  The claim requires every save to fsync the
temp file before the rename; this concrete save (either document kind)
performs no fsync operation at all. -/
theorem claimC2_counterexample :
    (tasking0.saveOps (taskingPath "/workspace") dt2024b).any FsOp.isFsync = false ∧
    (reporting0.saveOps (reportingPath "/workspace") dt2024b).any FsOp.isFsync = false :=
  ⟨rfl, rfl⟩

/-- **C2** (amended).  Every save of a tasking or reporting document writes
the serialized content into the sibling temp file (`tasking.tmp` /
`reporting.tmp` in the same `.cloud-code` directory), then renames it over
the target; it never opens the target path itself for writing
(no truncate-in-place) — but, contrary to the claim, it performs **no
fsync** before the rename. -/
theorem claimC2_save_atomic_replace_without_fsync :
    ∀ (f : TaskingFile) (rf : ReportingFile) (ws : String) (t : DateTime),
      f.saveOps (taskingPath ws) t =
        [FsOp.mkdirParents [ws, ".cloud-code"],
         FsOp.writeFile ⟨[ws, ".cloud-code"], "tasking.tmp"⟩
           ({ f with updated_at := t } : TaskingFile).toJson,
         FsOp.rename ⟨[ws, ".cloud-code"], "tasking.tmp"⟩ (taskingPath ws)] ∧
      (f.saveOps (taskingPath ws) t).any FsOp.isFsync = false ∧
      (f.saveOps (taskingPath ws) t).any (fun op => op.writesTo (taskingPath ws)) = false ∧
      rf.saveOps (reportingPath ws) t =
        [FsOp.mkdirParents [ws, ".cloud-code"],
         FsOp.writeFile ⟨[ws, ".cloud-code"], "reporting.tmp"⟩
           ({ rf with updated_at := t } : ReportingFile).toJson,
         FsOp.rename ⟨[ws, ".cloud-code"], "reporting.tmp"⟩ (reportingPath ws)] ∧
      (rf.saveOps (reportingPath ws) t).any FsOp.isFsync = false ∧
      (rf.saveOps (reportingPath ws) t).any
        (fun op => op.writesTo (reportingPath ws)) = false := by
  intro f rf ws t
  refine ⟨rfl, rfl, ?_, rfl, rfl, ?_⟩ <;>
    (simp [TaskingFile.saveOps, ReportingFile.saveOps, FsOp.writesTo,
      taskingPath, reportingPath, FilePath.withSuffix, chopExtRev,
      FilePath.mk.injEq]) <;> decide

/-- **C3** (counterexample).  The claim says a report in a terminal status
(`completed`/`failed`/`blocked`) is never changed by a subsequent
operation; here a task completed at `dt2024a` is moved back to `waiting`
by a later `update_status` call. -/
theorem claimC3_counterexample :
    statusOf (interfaceSetTaskCompleted reportEmpty "t" "done" [] [] [] dt2024a)
      "t" = some "completed" ∧
    statusOf (interfaceUpdateStatus
        (interfaceSetTaskCompleted reportEmpty "t" "done" [] [] [] dt2024a)
        "t" "waiting" none none dt2024b) "t" = some "waiting" :=
  ⟨rfl, rfl⟩

/-- **C3** (amended).  The reporting operations do **not** enforce any
monotonicity: each of them overwrites the task's status unconditionally
(`update_status` with its argument, the terminal helpers with
`completed`/`failed`/`blocked`), whatever the previous status was — so a
terminal status can be overwritten by any later operation.  The protocol
ordering in the spec holds only when callers follow it. -/
theorem claimC3_status_set_unconditionally :
    ∀ (rf : ReportingFile) (tid st su er re : String) (msg : Option String)
      (det : Option (List (String × Json))) (changes : List String)
      (files : List FileChange) (commits : List CommitRecord) (now : DateTime),
      statusOf (interfaceUpdateStatus rf tid st msg det now) tid = some st ∧
      statusOf (interfaceSetTaskCompleted rf tid su changes files commits now)
        tid = some "completed" ∧
      statusOf (interfaceSetTaskFailed rf tid er now) tid = some "failed" ∧
      statusOf (interfaceSetTaskBlocked rf tid re now) tid = some "blocked" :=
  fun rf tid st su er re msg det changes files commits now =>
    ⟨statusOf_interfaceUpdateStatus rf tid st msg det now,
     statusOf_interfaceSetTaskCompleted rf tid su changes files commits now,
     statusOf_interfaceSetTaskFailed rf tid er now,
     statusOf_interfaceSetTaskBlocked rf tid re now⟩

/-- **C4** (counterexample).  The claim says *every* `update_status` call
appends exactly one progress entry and refreshes `current_step`; a call
with `msg = None` updates the status but appends nothing and leaves
`current_step` untouched. -/
theorem claimC4_counterexample :
    statusOf (interfaceUpdateStatus reportEmpty "t" "planning" none none dt2024a)
      "t" = some "planning" ∧
    progressOf (interfaceUpdateStatus reportEmpty "t" "planning" none none dt2024a)
      "t" = [] ∧
    currentStepOf (interfaceUpdateStatus reportEmpty "t" "planning" none none dt2024a)
      "t" = none :=
  ⟨rfl, rfl, rfl⟩

/-- **C4** (amended).  `update_status(id, status, msg, details)` flips the
top-level reporting status to `working` iff the new status is
`in_progress` (else `idle`), always; but the progress entry (carrying the
status, message and details) is appended and `current_step` refreshed
**only when `msg` is truthy** (not `None` and not `""`); otherwise the
progress log and `current_step` are left unchanged. -/
theorem claimC4_update_status_characterization :
    ∀ (rf : ReportingFile) (tid st : String) (msg : Option String)
      (det : Option (List (String × Json))) (now : DateTime),
      (interfaceUpdateStatus rf tid st msg det now).status =
        (if st = "in_progress" then "working" else "idle") ∧
      (∀ m, msg = some m → m ≠ "" →
        progressOf (interfaceUpdateStatus rf tid st msg det now) tid =
          progressOf rf tid ++
            [{ timestamp := now, status := st, message := m,
               details := det.getD [] }] ∧
        currentStepOf (interfaceUpdateStatus rf tid st msg det now) tid = some m) ∧
      (msg = none ∨ msg = some "" →
        progressOf (interfaceUpdateStatus rf tid st msg det now) tid =
          progressOf rf tid ∧
        currentStepOf (interfaceUpdateStatus rf tid st msg det now) tid =
          currentStepOf rf tid) := by
  intro rf tid st msg det now
  refine ⟨topStatus_interfaceUpdateStatus rf tid st msg det now, ?_, ?_⟩
  · intro m hm hne
    subst hm
    exact ⟨progressOf_interfaceUpdateStatus_some rf tid st m hne det now,
           stepOf_interfaceUpdateStatus_some rf tid st m hne det now⟩
  · intro hm
    exact progressOf_interfaceUpdateStatus_falsy rf tid st msg hm det now

theorem claimC4_witness :
    ((interfaceUpdateStatus reportEmpty "t" "in_progress" (some "step") none
        dt2024a).status = (if "in_progress" = "in_progress" then "working" else "idle")) ∧
    progressOf (interfaceUpdateStatus reportEmpty "t" "in_progress" (some "step")
        none dt2024a) "t" =
      progressOf reportEmpty "t" ++
        [{ timestamp := dt2024a, status := "in_progress", message := "step",
           details := (none : Option (List (String × Json))).getD [] }] ∧
    currentStepOf (interfaceUpdateStatus reportEmpty "t" "in_progress" (some "step")
        none dt2024a) "t" = some "step" :=
  ⟨(claimC4_update_status_characterization reportEmpty "t" "in_progress"
      (some "step") none dt2024a).1,
   ((claimC4_update_status_characterization reportEmpty "t" "in_progress"
      (some "step") none dt2024a).2.1 "step" rfl (by decide)).1,
   ((claimC4_update_status_characterization reportEmpty "t" "in_progress"
      (some "step") none dt2024a).2.1 "step" rfl (by decide)).2⟩

end CloudCode

namespace CloudCode

/-- **C5** (counterexample).  The claim says `needs_handoff` is true iff
the combined stdout+stderr contains an indicator phrase.  On a successful
run (`returncode = 0`) with `"stuck"` on stderr, the combined text contains
the indicator yet the flag is false: `_run_command` discards stderr when
the process exits 0 (`stderr.decode() if stderr and not success else None`). -/
theorem claimC5_counterexample :
    (runCompleted 0 [] "stuck".data).needs_handoff = false ∧
    handoffIndicators.any
      (fun ind => containsSub ind (lowerChars ([] ++ "stuck".data))) = true :=
  ⟨rfl, rfl⟩

/-- **C5** (amended).  After a normal completion, `needs_handoff` is true
iff the scanned text — stdout, plus stderr **only when the exit code is
nonzero and stderr is nonempty** — lowercased contains one of the seven
fixed indicator phrases; timed-out and failed-to-launch runs always have
`needs_handoff = false`. -/
theorem claimC5_needs_handoff_scan :
    ∀ (rc : Int) (out err : List Char) (tmo : Int) (msg : List Char),
      (runCompleted rc out err).needs_handoff =
        handoffIndicators.any (fun ind =>
          containsSub ind
            (lowerChars (out ++ (if rc ≠ 0 ∧ err ≠ [] then err else [])))) ∧
      (runTimedOut tmo).needs_handoff = false ∧
      (runRaised msg).needs_handoff = false := by
  intro rc out err tmo msg
  refine ⟨?_, rfl, rfl⟩
  by_cases h0 : rc = 0
  · subst h0
    simp [runCompleted, checkNeedsHandoff]
  · by_cases he : err = [] <;>
      simp [runCompleted, checkNeedsHandoff, h0, he]

/-- **C6** (confirmed).  For both document kinds, loading the file content
written by `save` yields exactly the saved document.  `save` mutates the
in-memory document (it refreshes `updated_at` to the save time before
serializing), so the document that comes back is `(doc.save t).1`, the
post-save state of `doc` — which is what `doc` is at the moment the save
returns.  Hypotheses: the save time (and, for reporting, the datetimes
already inside the reports) fit the ISO rendering bounds, which every real
`datetime.utcnow()` value does. -/
theorem claimC6_read_write_roundtrip :
    (∀ (f : TaskingFile) (t now : DateTime), t.ValidB = true →
      TaskingFile.load (some (f.save t).2) now = some (f.save t).1) ∧
    (∀ (rf : ReportingFile) (t now : DateTime), t.ValidB = true →
      rf.tasks.all (fun p => p.2.datesOk) = true →
      ReportingFile.load (some (rf.save t).2) now = some (rf.save t).1) :=
  ⟨load_save_tasking, load_save_reporting⟩

theorem claimC6_witness :
    (dt2024b.ValidB = true) ∧
    TaskingFile.load (some (tasking0.save dt2024b).2) dt2024a =
      some (tasking0.save dt2024b).1 ∧
    (reporting0.tasks.all (fun p => p.2.datesOk) = true) ∧
    ReportingFile.load (some (reporting0.save dt2024b).2) dt2024a =
      some (reporting0.save dt2024b).1 :=
  ⟨by decide,
   claimC6_read_write_roundtrip.1 tasking0 dt2024b dt2024a (by decide),
   by decide,
   claimC6_read_write_roundtrip.2 reporting0 dt2024b dt2024a (by decide) (by decide)⟩

/-- **C7** (counterexample).  The claim says the second `cancel_task(id)`
leaves the on-disk tasking document unchanged.  It does not: `save`
refreshes `updated_at` on every call, so the second call rewrites the file
with a new timestamp (`2024-01-01T00:00:00` → `2024-01-02T03:04:05.000006`
here). -/
theorem claimC7_counterexample :
    (interfaceCancelTask (some tasking0.toJson) "a" dt2024a dt2024a).bind
      (fun j => jGet j "updated_at") = some (.str "2024-01-01T00:00:00") ∧
    ((interfaceCancelTask (some tasking0.toJson) "a" dt2024a dt2024a).bind
      (fun j => interfaceCancelTask (some j) "a" dt2024a dt2024b)).bind
      (fun j => jGet j "updated_at") = some (.str "2024-01-02T03:04:05.000006") :=
  ⟨rfl, rfl⟩

/-- **C7** (amended).  `cancel_task` is idempotent **up to `updated_at`**:
after a first cancel, a second cancel with save time `t2` writes exactly
the same document with only `updated_at` replaced by `t2` — the task list
(including the `cancelled` status) and every other field are identical.
The claim's "leaves the on-disk document unchanged" fails only because of
the refreshed timestamp. -/
theorem claimC7_cancel_second_call_refreshes_timestamp_only :
    ∀ (f0 : TaskingFile) (tid : String) (tL1 t1 tL2 t2 : DateTime),
      f0.updated_at.ValidB = true → t1.ValidB = true →
      interfaceCancelTask (some f0.toJson) tid tL1 t1 =
        some ({ f0.cancelTask tid with updated_at := t1 } : TaskingFile).toJson ∧
      interfaceCancelTask
          (some ({ f0.cancelTask tid with updated_at := t1 } : TaskingFile).toJson)
          tid tL2 t2 =
        some ({ f0.cancelTask tid with updated_at := t2 } : TaskingFile).toJson := by
  intro f0 tid tL1 t1 tL2 t2 h0 h1
  have hload : TaskingFile.load (some f0.toJson) tL1 = some f0 := by
    show TaskingFile.ofJson tL1 (orEmpty f0.toJson) = some f0
    rw [show orEmpty f0.toJson = f0.toJson from rfl]
    exact taskingFile_roundtrip tL1 f0 h0
  constructor
  · simp [interfaceCancelTask, hload, TaskingFile.save]
  · have hload1 : TaskingFile.load
        (some ({ f0.cancelTask tid with updated_at := t1 } : TaskingFile).toJson)
        tL2 = some ({ f0.cancelTask tid with updated_at := t1 } : TaskingFile) := by
      show TaskingFile.ofJson tL2
        (orEmpty ({ f0.cancelTask tid with updated_at := t1 } : TaskingFile).toJson) = _
      rw [show orEmpty ({ f0.cancelTask tid with updated_at := t1 } :
        TaskingFile).toJson = ({ f0.cancelTask tid with updated_at := t1 } :
        TaskingFile).toJson from rfl]
      exact taskingFile_roundtrip tL2 _ h1
    show (TaskingFile.load
        (some ({ f0.cancelTask tid with updated_at := t1 } : TaskingFile).toJson)
        tL2).map (fun f => ((f.cancelTask tid).save t2).2) = _
    rw [hload1]
    have hfix : (({ f0.cancelTask tid with updated_at := t1 } :
        TaskingFile).cancelTask tid) =
        ({ f0.cancelTask tid with updated_at := t1 } : TaskingFile) := by
      simp [TaskingFile.cancelTask, cancelInTasks_idem]
    simp only [Option.map]
    rw [hfix]
    rfl

theorem claimC7_witness :
    (tasking0.updated_at.ValidB = true) ∧ (dt2024a.ValidB = true) ∧
    interfaceCancelTask (some tasking0.toJson) "a" dt2024a dt2024a =
      some ({ tasking0.cancelTask "a" with updated_at := dt2024a } :
        TaskingFile).toJson ∧
    interfaceCancelTask
        (some ({ tasking0.cancelTask "a" with updated_at := dt2024a } :
          TaskingFile).toJson) "a" dt2024a dt2024b =
      some ({ tasking0.cancelTask "a" with updated_at := dt2024b } :
        TaskingFile).toJson :=
  ⟨by decide, by decide,
   (claimC7_cancel_second_call_refreshes_timestamp_only tasking0 "a" dt2024a
     dt2024a dt2024a dt2024b (by decide) (by decide)).1,
   (claimC7_cancel_second_call_refreshes_timestamp_only tasking0 "a" dt2024a
     dt2024a dt2024a dt2024b (by decide) (by decide)).2⟩

/-- **C8** (confirmed).  The comment-command parser implements
`^/cloud-code\s+(\w+)(\s+.*)?$` case-insensitively and multiline over the
whole body: the two example bodies parse to exactly the claimed dicts, and
any body none of whose lines starts (case-insensitively) with
`/cloud-code` parses to `none`. -/
theorem claimC8_comment_grammar :
    parseCloudCodeCommand "hello\n/cloud-code handoff backend\nthanks" =
      some [("action", some "handoff"), ("target_agent", some "backend")] ∧
    parseCloudCodeCommand "/CLOUD-CODE run frontend" =
      some [("action", some "run"), ("agent_type", some "frontend")] ∧
    (∀ body : String, (∀ l ∈ bodyLines body.data, hasCmdStart l = false) →
      parseCloudCodeCommand body = none) :=
  ⟨by decide, by decide, parse_none_of_no_cmd_line⟩

theorem claimC8_witness :
    (∀ l ∈ bodyLines "hello world\nno commands here".data, hasCmdStart l = false) ∧
    parseCloudCodeCommand "hello world\nno commands here" = none :=
  ⟨by decide,
   claimC8_comment_grammar.2.2 "hello world\nno commands here" (by decide)⟩

/-- **C9** (confirmed).  `started_at` is write-once: a non-`None`
`started_at` survives every sequence of agent-side reporting operations
unchanged, and from a `None` state a single operation sets it (to the
operation's time) exactly when that operation is an `update_status` to
`received` targeting the task. -/
theorem claimC9_started_at_write_once :
    (∀ (rf : ReportingFile) (ops : List (AgentOp × DateTime)) (tid : String)
      (t : DateTime), startedAt rf tid = some t →
      startedAt (runAgentOps rf ops) tid = some t) ∧
    (∀ (rf : ReportingFile) (op : AgentOp) (now : DateTime) (tid : String),
      startedAt rf tid = none →
      startedAt (applyAgentOp rf op now) tid =
        (if op.setsReceived tid then some now else none)) :=
  ⟨startedAt_runAgentOps_some,
   fun rf op now tid h => by rw [startedAt_applyAgentOp, h]⟩

theorem claimC9_witness :
    (startedAt reporting0 "t" = some dt2024a) ∧
    startedAt (runAgentOps reporting0 ops0) "t" = some dt2024a ∧
    (startedAt reportEmpty "t" = none) ∧
    startedAt (applyAgentOp reportEmpty (.update "t" "received" none none) dt2024b)
        "t" =
      (if (AgentOp.update "t" "received" none none).setsReceived "t" then
        some dt2024b else none) :=
  ⟨rfl, claimC9_started_at_write_once.1 reporting0 ops0 "t" dt2024a rfl, rfl,
   claimC9_started_at_write_once.2 reportEmpty (.update "t" "received" none none)
     dt2024b "t" rfl⟩

/-- **C10** (confirmed).  (1) Any priority string outside
{critical, high, medium, low} gets sort key 2, the key of `"medium"`.
(2) Replacing every unrecognized priority by `"medium"` changes neither
the selected task (by id) nor whether selection raises — so selection
never fails *because of* an unrecognized priority.  (3) The selected task
is the **first** eligible task (in document order) attaining the minimal
key: everything before it in the eligible list has a strictly larger key
and everything after it a larger-or-equal key, i.e. ties preserve the
original document order (Python's `list.sort` is stable). -/
theorem claimC10_priority_fallback_and_stability :
    (∀ p : String, p ∉ (["critical", "high", "medium", "low"] : List String) →
      priorityKey p = priorityKey "medium") ∧
    (∀ (tasks : List TaskDefinition) (rep : ReportingFile),
      selectedId (selectNextTask (tasks.map normalizeUnknownPriority) rep) =
        selectedId (selectNextTask tasks rep)) ∧
    (∀ (tasks : List TaskDefinition) (rep : ReportingFile) (t : TaskDefinition),
      selectNextTask tasks rep = .ok (some t) →
      ∃ el l₁ l₂, eligibleTasks tasks rep = .ok el ∧ el = l₁ ++ t :: l₂ ∧
        (∀ u ∈ l₁, priorityKey t.priority < priorityKey u.priority) ∧
        (∀ u ∈ l₂, priorityKey t.priority ≤ priorityKey u.priority)) :=
  ⟨priorityKey_unknown, selectNextTask_normalize, fun tasks rep t h => by
    obtain ⟨el, he, hh⟩ := selectNextTask_some_inversion tasks rep t h
    obtain ⟨l₁, l₂, hsplit, hlt, hle⟩ := sortByKey_head_split el t hh
    exact ⟨el, l₁, l₂, he, hsplit, hlt, hle⟩⟩

theorem claimC10_witness :
    (("weird" : String) ∉ (["critical", "high", "medium", "low"] : List String)) ∧
    priorityKey "weird" = priorityKey "medium" ∧
    (selectNextTask [taskWeird] reportEmpty = .ok (some taskWeird)) ∧
    (∃ el l₁ l₂, eligibleTasks [taskWeird] reportEmpty = .ok el ∧
      el = l₁ ++ taskWeird :: l₂ ∧
      (∀ u ∈ l₁, priorityKey taskWeird.priority < priorityKey u.priority) ∧
      (∀ u ∈ l₂, priorityKey taskWeird.priority ≤ priorityKey u.priority)) :=
  ⟨by decide, claimC10_priority_fallback_and_stability.1 "weird" (by decide),
   rfl,
   claimC10_priority_fallback_and_stability.2.2 [taskWeird] reportEmpty taskWeird
     rfl⟩

end CloudCode
